import Mathlib

/-!
Verification development for the GraphNext process-mining frontend.

This file shallowly embeds the Graph State & Path Engine of the repository:

* `extractPath` / `findPathsBetweenNodes` — the path extractor and aggregator
  from `src/FrontEnd/src/app/routing/page.tsx` (`findPathsBetweenNodes`);
* `processInitialData` — the graph ingestor from
  `src/FrontEnd/src/store/useGraphStore.ts`;
* `subgraphFilter`, `ghostInject`, `searchInject`, `computeLayoutStep` — the
  filter / ghost-overlay / layout-coordination pipeline of `computeLayout`
  in `src/FrontEnd/src/store/useGraphStore.ts`;
* `calculateEdgeOverride` — the edge override resolver from the same module.

JavaScript `Record<string, number>` objects are modelled as insertion-ordered
association lists (`alistSet` mirrors `obj[k] = v`, `alistGet?` mirrors
`obj[k]`), JS numbers as `ℚ`, case-count frequencies as `ℕ`, and JS `Set`s of
ids as lists queried by `contains`.  The external ELK layout delegate and the
`formatDuration` / colour-palette presentation helpers are abstracted as
function parameters, matching the spec's interface boundary.
-/

namespace GraphNext

/-! ### JS-style association lists (the model of `Record<string, number>` and `Map`) -/

/-- `obj[k]` — lookup in an insertion-ordered record. -/
def alistGet? {α : Type} : List (String × α) → String → Option α
  | [], _ => none
  | (k', v) :: t, k => if k' = k then some v else alistGet? t k

/-- `obj[k] = v` / `map.set(k, v)` — update in place if the key is present,
append otherwise (JS insertion-order semantics). -/
def alistSet {α : Type} : List (String × α) → String → α → List (String × α)
  | [], k, v => [(k, v)]
  | (k', v') :: t, k, v =>
    if k' = k then (k, v) :: t else (k', v') :: alistSet t k v

/-- The keys of a record, in insertion order. -/
def alistKeys {α : Type} (l : List (String × α)) : List String :=
  l.map Prod.fst

/-! ### JS string and array primitives used by the source -/

/-- `Array.prototype.indexOf`: index of the first occurrence, `-1` if absent. -/
def jsIndexOf (x : String) : List String → ℤ
  | [] => -1
  | a :: l =>
    if a = x then 0
    else
      let r := jsIndexOf x l
      if r = -1 then -1 else r + 1

/-- `Array.prototype.lastIndexOf`: index of the last occurrence, `-1` if absent. -/
def jsLastIndexOf (x : String) : List String → ℤ
  | [] => -1
  | a :: l =>
    let r := jsLastIndexOf x l
    if r ≠ -1 then r + 1
    else if a = x then 0 else -1

/-- Worker for `jsSplitArrow`: scans characters, splitting on the two-character
separator `->`; `pending` records a just-seen `-` that may start a separator. -/
def splitArrowAux : List Char → List Char → Bool → List String
  | [], acc, pending =>
    [String.mk ((if pending then '-' :: acc else acc).reverse)]
  | c :: rest, acc, pending =>
    if pending then
      if c = '>' then String.mk acc.reverse :: splitArrowAux rest [] false
      else if c = '-' then splitArrowAux rest ('-' :: acc) true
      else splitArrowAux rest (c :: '-' :: acc) false
    else
      if c = '-' then splitArrowAux rest acc true
      else splitArrowAux rest (c :: acc) false

/-- `s.split("->")` as used to recover an edge's endpoints from its id. -/
def jsSplitArrow (s : String) : List String :=
  splitArrowAux s.toList [] false

/-- `nodes.join("->")` — the grouping key of the path aggregator. -/
def joinArrow : List String → String
  | [] => ""
  | [a] => a
  | a :: rest => a ++ "->" ++ joinArrow rest

/-- The synthetic start anchor id. -/
def START_NODE : String := "START_NODE"

/-- The synthetic end anchor id. -/
def END_NODE : String := "END_NODE"

/-! ### Data model (from `types/types.ts`) -/

/-- A trace variant (`Variant` in `types/types.ts`): `path` is `Variant_Path`,
`frequency` is the case count `Frequency`, and `avgTimings` / `totalTimings`
are the cumulative `Avg_Timings` / `Total_Timings` arrays. -/
structure Variant where
  path : List String
  frequency : ℕ
  avgTimings : List ℚ
  totalTimings : List ℚ

/-- `_pathType` values of an `ExtendedPath`. -/
inductive PathType where
  | absolute
  | relative
deriving DecidableEq

/-- `ExtendedPath` from `types/types.ts`; optional TS fields are `Option`s.
Underscore-prefixed fields keep their source names. -/
structure ExtendedPath where
  nodes : List String
  edges : List String
  frequency : Option ℕ := none
  totalDuration : Option ℚ := none
  averageDuration : Option ℚ := none
  _pathType : Option PathType := none
  _frequency : Option ℕ := none
  _fullPathNodes : Option (List String) := none
  _startIndex : Option ℕ := none
  _endIndex : Option ℕ := none
  _variantDuration : Option ℚ := none
  _variantTimings : Option (List ℚ) := none
  _specificEdgeDurations : Option (List (String × ℚ)) := none
  _specificTotalDurations : Option (List (String × ℚ)) := none

/-! ### PathExtractor (`findPathsBetweenNodes` in `app/routing/page.tsx`,
per-variant part of the loop) -/

/-- One iteration of the edge-duration loop
(`for (let i = startTimingIndex; i < endTimingIndex && (i+1) < Avg_Timings.length; i++)`):
accumulates the running total and the two per-edge records. -/
def timingStep (v : Variant) (acc : ℚ × List (String × ℚ) × List (String × ℚ))
    (i : ℕ) : ℚ × List (String × ℚ) × List (String × ℚ) :=
  let currentTime := v.avgTimings.getD i 0
  let nextTime := v.avgTimings.getD (i + 1) 0
  let avgDuration := max 0 (nextTime - currentTime)
  let currentTotal := v.totalTimings.getD i 0
  let nextTotal := v.totalTimings.getD (i + 1) 0
  let totalTimingDuration := max 0 (nextTotal - currentTotal)
  let edgeId := v.path.getD i "" ++ "->" ++ v.path.getD (i + 1) ""
  (acc.1 + avgDuration,
   alistSet acc.2.1 edgeId avgDuration,
   alistSet acc.2.2 edgeId totalTimingDuration)

/-- The body of the per-variant loop of `findPathsBetweenNodes`: resolve the
start index (first occurrence, or `0` for the `START_NODE` sentinel) and the
end index (last occurrence, or `path.length - 1` for the `END_NODE` sentinel),
discard (`continue`) when an index is `-1` or `endIndex ≤ startIndex`, slice
the sub-path inclusively and derive per-edge durations from the cumulative
timing arrays. -/
def extractPath (startId endId : String) (v : Variant) : Option ExtendedPath :=
  let startIndex : ℤ := if startId = START_NODE then 0 else jsIndexOf startId v.path
  if startIndex = -1 then none
  else
    let endIndex : ℤ :=
      if endId = END_NODE then (v.path.length : ℤ) - 1 else jsLastIndexOf endId v.path
    if endIndex = -1 ∨ endIndex ≤ startIndex then none
    else
      let s := startIndex.toNat
      let e := endIndex.toNat
      let subPath := (v.path.drop s).take (e + 1 - s)
      let isAbsolute : Bool :=
        decide (startIndex = 0 ∧ endIndex = (v.path.length : ℤ) - 1)
      let base : ExtendedPath :=
        { nodes := subPath
          edges := []
          frequency := some v.frequency
          totalDuration := some 0
          averageDuration := some 0
          _pathType := some (if isAbsolute then .absolute else .relative)
          _frequency := some v.frequency
          _fullPathNodes := some v.path
          _startIndex := some s
          _endIndex := some e }
      if v.avgTimings.isEmpty then some base
      else
        let steps := List.range' s (min e (v.avgTimings.length - 1) - s)
        let res := steps.foldl (timingStep v) (0, [], [])
        let totalDuration := res.1
        some { base with
          totalDuration := some totalDuration
          averageDuration :=
            some (if 1 < subPath.length
                  then totalDuration / ((subPath.length : ℚ) - 1) else 0)
          _variantDuration := some totalDuration
          _variantTimings := some ((v.avgTimings.drop s).take (e + 1 - s))
          _specificEdgeDurations := some res.2.1
          _specificTotalDurations := some res.2.2 }

/-! ### PathAggregator (grouping part of `findPathsBetweenNodes`) -/

/-- `path.nodes.join("->")` — the grouping key of the aggregation map. -/
def pathKey (p : ExtendedPath) : String :=
  joinArrow p.nodes

/-- `path.frequency || 1` — the frequency a path contributes to its group
(`0` and missing both fall back to `1`). -/
def effFrequency (p : ExtendedPath) : ℕ :=
  match p.frequency with
  | some n => if n = 0 then 1 else n
  | none => 1

/-- A value of the aggregation `pathMap`: the first path of the group plus the
running totals. -/
structure GroupAcc where
  path : ExtendedPath
  totalFrequency : ℕ
  weightedTotalDuration : ℚ
  weightedEdgeDurations : List (String × ℚ)
  summedEdgeTotalDurations : List (String × ℚ)

/-- The `Object.entries` accumulation loop shared by the weighted and the
summed per-edge records: for each entry `(k, d)` of `entries`, do
`acc[k] = (acc[k] || 0) + v d`. -/
def addEntries (acc : List (String × ℚ)) (entries : List (String × ℚ))
    (v : ℚ → ℚ) : List (String × ℚ) :=
  entries.foldl (fun a kv => alistSet a kv.1 ((alistGet? a kv.1).getD 0 + v kv.2)) acc

/-- The `Object.entries` initialisation loop: build a fresh record whose value
at each key `k` of `entries` is `v` applied to the entry's value. -/
def buildEntries (entries : List (String × ℚ)) (v : ℚ → ℚ) : List (String × ℚ) :=
  entries.foldl (fun a kv => alistSet a kv.1 (v kv.2)) []

/-- The `existing` branch of the grouping loop: accumulate a further path of
the same group into the group's accumulator. -/
def updateAcc (ex : GroupAcc) (p : ExtendedPath) : GroupAcc :=
  let frequency := effFrequency p
  let pathTotalDuration := p.totalDuration.getD 0
  { ex with
    totalFrequency := ex.totalFrequency + frequency
    weightedTotalDuration :=
      ex.weightedTotalDuration + pathTotalDuration * frequency
    weightedEdgeDurations :=
      match p._specificEdgeDurations with
      | some ent => addEntries ex.weightedEdgeDurations ent (· * (frequency : ℚ))
      | none => ex.weightedEdgeDurations
    summedEdgeTotalDurations :=
      match p._specificTotalDurations with
      | some ent => addEntries ex.summedEdgeTotalDurations ent id
      | none => ex.summedEdgeTotalDurations }

/-- The first-member branch of the grouping loop: initialise a group's
accumulator from its first path. -/
def initAcc (p : ExtendedPath) : GroupAcc :=
  let frequency := effFrequency p
  let pathTotalDuration := p.totalDuration.getD 0
  { path := p
    totalFrequency := frequency
    weightedTotalDuration := pathTotalDuration * frequency
    weightedEdgeDurations :=
      match p._specificEdgeDurations with
      | some ent => buildEntries ent (· * (frequency : ℚ))
      | none => []
    summedEdgeTotalDurations :=
      match p._specificTotalDurations with
      | some ent => buildEntries ent id
      | none => [] }

/-- One step of the grouping loop over `pathMap` (`const existing = pathMap.get(key)`). -/
def aggStep (m : List (String × GroupAcc)) (p : ExtendedPath) :
    List (String × GroupAcc) :=
  let key := pathKey p
  match alistGet? m key with
  | some ex => alistSet m key (updateAcc ex p)
  | none => alistSet m key (initAcc p)

/-- The final per-group pass: divide the weighted totals by the group
frequency and write the merged statistics back onto the first path. -/
def finalizeGroup (g : GroupAcc) : ExtendedPath :=
  let avgEdgeDurations :=
    g.weightedEdgeDurations.foldl
      (fun a kv => alistSet a kv.1 (kv.2 / (g.totalFrequency : ℚ))) []
  let totalDuration := g.weightedTotalDuration / (g.totalFrequency : ℚ)
  { g.path with
    frequency := some g.totalFrequency
    _frequency := some g.totalFrequency
    _specificEdgeDurations := some avgEdgeDurations
    _specificTotalDurations := some g.summedEdgeTotalDurations
    totalDuration := some totalDuration
    averageDuration :=
      some (if 1 < g.path.nodes.length
            then totalDuration / ((g.path.nodes.length : ℚ) - 1) else 0)
    _variantDuration := some totalDuration }

/-- Aggregate a list of extracted paths: group by the joined node sequence,
merge each group, and sort by descending frequency
(`mergedPaths.sort((a, b) => (b.frequency || 0) - (a.frequency || 0))`). -/
def aggregatePaths (paths : List ExtendedPath) : List ExtendedPath :=
  let pathMap := paths.foldl aggStep []
  let mergedPaths := pathMap.map (fun kv => finalizeGroup kv.2)
  mergedPaths.mergeSort (fun a b => decide (b.frequency.getD 0 ≤ a.frequency.getD 0))

/-- `findPathsBetweenNodes(startId, endId, variantList)` from
`app/routing/page.tsx`: extract one candidate per qualifying variant, then
group and merge. -/
def findPathsBetweenNodes (startId endId : String) (variantList : List Variant) :
    List ExtendedPath :=
  if variantList.isEmpty then []
  else aggregatePaths (variantList.filterMap (extractPath startId endId))

/-! ### Graph elements (React-Flow `Node` / `Edge`, flattened) -/

/-- A graph node; `ntype` is the React-Flow `type` tag
(`activity` / `start` / `end`), `x`/`y` the layout position. -/
structure GNode where
  id : String
  ntype : String := "activity"
  label : String := ""
  isStart : Bool := false
  isEnd : Bool := false
  isGhost : Bool := false
  x : ℚ := 0
  y : ℚ := 0

/-- A graph edge with its `data` payload flattened in: `weight` is
`Weight_Value`, `caseCount` is `Case_Count`, and the `stroke` / `dashed` /
`animated` fields carry the style object. -/
structure GEdge where
  id : String
  source : String
  target : String
  etype : String := "default"
  label : String := ""
  weight : ℚ := 0
  caseCount : ℚ := 0
  meanDurationSeconds : ℚ := 0
  tooltipTotalTime : String := ""
  tooltipMeanTime : String := ""
  isGhost : Bool := false
  originalStroke : Option String := none
  stroke : Option String := none
  dashed : Bool := false
  animated : Bool := false
  pathDuration : Option ℚ := none
  pathFrequency : Option ℕ := none

/-! ### GraphIngestor (`processInitialData` in `store/useGraphStore.ts`) -/

/-- One row of `graphData` (`GraphData` in `types/types.ts`). -/
structure EdgeRecord where
  sourceActivity : String
  targetActivity : String
  meanDurationSeconds : ℚ
  tooltipTotalTime : String
  tooltipMeanTime : String
  weightValue : ℚ
  edgeLabel : String
  caseCount : ℚ

/-- The deterministic edge id `` `${source}->${target}` ``. -/
def recordEdgeId (item : EdgeRecord) : String :=
  item.sourceActivity ++ "->" ++ item.targetActivity

/-- The edge object created for a record by `processInitialData`. -/
def recordEdge (item : EdgeRecord) : GEdge :=
  { id := recordEdgeId item
    source := item.sourceActivity
    target := item.targetActivity
    etype := "default"
    label := item.edgeLabel
    weight := item.weightValue
    caseCount := item.caseCount
    meanDurationSeconds := item.meanDurationSeconds
    tooltipTotalTime := item.tooltipTotalTime
    tooltipMeanTime := item.tooltipMeanTime }

/-- The activity node lazily created for a first-seen id. -/
def mkActivityNode (id : String) (startActivities endActivities : List String) :
    GNode :=
  { id := id
    ntype := "activity"
    label := id
    isStart := startActivities.contains id
    isEnd := endActivities.contains id }

/-- One record of the ingestion loop: create the source node, the target node
and the edge only when their key is not yet in the respective map
(`if (!nodesMap.has(...))` / `if (!edgesMap.has(edgeId))`). -/
def ingestStep (startActivities endActivities : List String)
    (maps : List (String × GNode) × List (String × GEdge)) (item : EdgeRecord) :
    List (String × GNode) × List (String × GEdge) :=
  let nodesMap := maps.1
  let nodesMap :=
    if (alistGet? nodesMap item.sourceActivity).isSome then nodesMap
    else alistSet nodesMap item.sourceActivity
      (mkActivityNode item.sourceActivity startActivities endActivities)
  let nodesMap :=
    if (alistGet? nodesMap item.targetActivity).isSome then nodesMap
    else alistSet nodesMap item.targetActivity
      (mkActivityNode item.targetActivity startActivities endActivities)
  let edgesMap := maps.2
  let edgeId := recordEdgeId item
  let edgesMap :=
    if (alistGet? edgesMap edgeId).isSome then edgesMap
    else alistSet edgesMap edgeId (recordEdge item)
  (nodesMap, edgesMap)

/-- The `validNodeIds` set: every source and target id of the record list. -/
def validNodeIds (graphData : List EdgeRecord) : List String :=
  graphData.foldl (fun s item => s ++ [item.sourceActivity, item.targetActivity]) []

/-- The synthetic start anchor node. -/
def startNodeDef : GNode :=
  { id := START_NODE, ntype := "start", label := "شروع" }

/-- The synthetic end anchor node. -/
def endNodeDef : GNode :=
  { id := END_NODE, ntype := "end", label := "پایان" }

/-- The dashed anchor edge from `START_NODE` to a start activity. -/
def startAnchorEdge (targetNodeId : String) : GEdge :=
  { id := "start-to-" ++ targetNodeId
    source := START_NODE
    target := targetNodeId
    etype := "default"
    originalStroke := some "#a0aec0"
    stroke := some "#a0aec0"
    dashed := true }

/-- The dashed anchor edge from an end activity to `END_NODE`. -/
def endAnchorEdge (sourceNodeId : String) : GEdge :=
  { id := sourceNodeId ++ "-to-end"
    source := sourceNodeId
    target := END_NODE
    etype := "default"
    originalStroke := some "#a0aec0"
    stroke := some "#a0aec0"
    dashed := true }

/-- `processInitialData(graphData, startActivities, endActivities)`: ingest all
records, then add the two anchor nodes and the anchor edges for start/end
activities present in the record set; return `Array.from(map.values())`. -/
def processInitialData (graphData : List EdgeRecord)
    (startActivities endActivities : List String) : List GNode × List GEdge :=
  let valid := validNodeIds graphData
  let step := graphData.foldl (ingestStep startActivities endActivities) ([], [])
  let nodesMap := alistSet step.1 START_NODE startNodeDef
  let nodesMap := alistSet nodesMap END_NODE endNodeDef
  let edgesMap :=
    (startActivities.filter (fun t => valid.contains t)).foldl
      (fun m t => alistSet m ("start-to-" ++ t) (startAnchorEdge t)) step.2
  let edgesMap :=
    (endActivities.filter (fun s0 => valid.contains s0)).foldl
      (fun m s0 => alistSet m (s0 ++ "-to-end") (endAnchorEdge s0)) edgesMap
  (nodesMap.map Prod.snd, edgesMap.map Prod.snd)

/-! ### SubgraphFilter (filter stage of `computeLayout`) -/

/-- The node/edge filter stage of `computeLayout`: skip entirely when the
kept-node set is empty; otherwise extend the kept set with the anchors unless
an active path is shown, keep nodes in the extended set and edges whose two
endpoints survive; finally intersect with the kept-edge set when it is
supplied and non-empty. -/
def subgraphFilter (allNodes : List GNode) (allEdges : List GEdge)
    (filteredNodeIds : List String) (filteredEdgeIds : Option (List String))
    (hasActivePath : Bool) : List GNode × List GEdge :=
  let step1 :=
    if 0 < allNodes.length ∧ 0 < filteredNodeIds.length then
      let extendedNodeIds :=
        if hasActivePath then filteredNodeIds
        else filteredNodeIds ++ [START_NODE, END_NODE]
      (allNodes.filter (fun n => extendedNodeIds.contains n.id),
       allEdges.filter (fun e =>
         extendedNodeIds.contains e.source && extendedNodeIds.contains e.target))
    else (allNodes, allEdges)
  match filteredEdgeIds with
  | some ids =>
    if 0 < step1.2.length ∧ 0 < ids.length then
      (step1.1, step1.2.filter (fun e => ids.contains e.id))
    else step1
  | none => step1

/-! ### GhostOverlayInjector (ghost stage of `computeLayout`) -/

/-- The synthesized ghost node for a path node missing from the filtered set. -/
def ghostNodeOf (id : String) : GNode :=
  { id := id, ntype := "activity", label := id, isGhost := true }

/-- The synthesized dashed ghost edge for a missing path edge; its endpoints
are recovered by splitting the id on `->`. -/
def ghostEdgeOf (edgeId : String) : GEdge :=
  { id := edgeId
    source := (jsSplitArrow edgeId).getD 0 ""
    target := (jsSplitArrow edgeId).getD 1 ""
    etype := "default"
    animated := true
    label := ""
    stroke := some "#f59e0b"
    dashed := true
    isGhost := true }

/-- Ghost injection: append one ghost node per active-path node id not already
present, then one ghost edge per active-path edge id not already present. -/
def ghostInject (nodes : List GNode) (edges : List GEdge)
    (pathNodes pathEdges : List String) : List GNode × List GEdge :=
  let existingNodeIds := nodes.map GNode.id
  let ghostNodeIds := pathNodes.filter (fun id => !(existingNodeIds.contains id))
  let nodes2 := nodes ++ ghostNodeIds.map ghostNodeOf
  let existingEdgeIds := edges.map GEdge.id
  let ghostEdgeIds := pathEdges.filter (fun id => !(existingEdgeIds.contains id))
  (nodes2, edges ++ ghostEdgeIds.map ghostEdgeOf)

/-- The non-ghost node synthesized for a search-case path. -/
def searchNodeOf (id : String) : GNode :=
  { id := id, ntype := "activity", label := id, isGhost := false }

/-- The non-ghost edge synthesized for a search-case path. -/
def searchEdgeOf (edgeId : String) : GEdge :=
  { id := edgeId
    source := (jsSplitArrow edgeId).getD 0 ""
    target := (jsSplitArrow edgeId).getD 1 ""
    etype := "default"
    animated := false
    label := ""
    isGhost := false }

/-- Search-case injection: structurally identical to `ghostInject` but the
added elements carry normal (non-ghost) styling. -/
def searchInject (nodes : List GNode) (edges : List GEdge)
    (pathNodes pathEdges : List String) : List GNode × List GEdge :=
  let existingNodeIds := nodes.map GNode.id
  let newNodeIds := pathNodes.filter (fun id => !(existingNodeIds.contains id))
  let nodes2 := nodes ++ newNodeIds.map searchNodeOf
  let existingEdgeIds := edges.map GEdge.id
  let newEdgeIds := pathEdges.filter (fun id => !(existingEdgeIds.contains id))
  (nodes2, edges ++ newEdgeIds.map searchEdgeOf)

/-! ### LayoutCoordinator (`computeLayout` in `store/useGraphStore.ts`) -/

/-- The `activePathInfo` payload of a layout request. -/
structure ActivePathInfo where
  nodes : List String
  edges : List String
  edgeDurations : Option (List (String × ℚ)) := none
  edgeTotalDurations : Option (List (String × ℚ)) := none
  frequency : Option ℕ := none

/-- The `searchCasePathInfo` payload of a layout request. -/
structure SearchCasePathInfo where
  nodes : List String
  edges : List String

/-- The slice of the store state that `computeLayout` writes. -/
structure GraphStoreState where
  layoutedNodes : List GNode
  layoutedEdges : List GEdge
  isLayoutLoading : Bool
  loadingMessage : String

/-- The loading message set at the start of a layout computation. -/
def layoutComputingMessage : String := "در حال محاسبه چیدمان گراف..."

/-- `x || d` on an optional JS number standing for a count: `undefined` and
`0` both fall back to `d`. -/
def jsOrNat (x : Option ℕ) (d : ℕ) : ℕ :=
  match x with
  | some n => if n = 0 then d else n
  | none => d

/-- Filter plus ghost plus search-case injection: the element lists that
`computeLayout` hands to the external layout algorithm. -/
def elementsToLayout (allNodes : List GNode) (allEdges : List GEdge)
    (filteredNodeIds : List String) (filteredEdgeIds : Option (List String))
    (activePathInfo : Option ActivePathInfo)
    (searchCasePathInfo : Option SearchCasePathInfo) : List GNode × List GEdge :=
  let fe := subgraphFilter allNodes allEdges filteredNodeIds filteredEdgeIds
    activePathInfo.isSome
  let ge :=
    match activePathInfo with
    | some info => ghostInject fe.1 fe.2 info.nodes info.edges
    | none => fe
  match searchCasePathInfo with
  | some info => searchInject ge.1 ge.2 info.nodes info.edges
  | none => ge

/-- Post-layout enrichment of a ghost edge: when the active path carries a
duration for it, write the path-specific label/tooltip data; otherwise the
edge is returned untouched (ghost edges never take part in colouring). -/
def enrichGhostEdge (fmt : ℚ → String) (activePathInfo : Option ActivePathInfo)
    (edge : GEdge) : GEdge :=
  match activePathInfo with
  | some info =>
    match info.edgeDurations with
    | some durs =>
      match alistGet? durs edge.id with
      | some avgDuration =>
        let totalDuration :=
          match info.edgeTotalDurations with
          | some tot => (alistGet? tot edge.id).getD avgDuration
          | none => avgDuration
        let pathFrequency := jsOrNat info.frequency 1
        { edge with
          label := fmt avgDuration
          pathDuration := some avgDuration
          pathFrequency := some pathFrequency
          tooltipMeanTime := fmt avgDuration
          tooltipTotalTime := fmt totalDuration
          caseCount := (pathFrequency : ℚ) }
      | none => edge
    | none => edge
  | none => edge

/-- Post-layout colouring of a normal edge: resolve the stroke colour from the
palette and the weight domain, and prefer path-specific duration overrides for
the label and tooltip payload when the active path supplies them. -/
def colorNormalEdge (palette : ℚ → ℚ → ℚ → String) (fmt : ℚ → String)
    (activePathInfo : Option ActivePathInfo) (minWeight maxWeight : ℚ)
    (edge : GEdge) : GEdge :=
  let color := palette edge.weight minWeight maxWeight
  let base := { edge with stroke := some color, originalStroke := some color }
  match activePathInfo with
  | some info =>
    match info.edgeDurations with
    | some durs =>
      match alistGet? durs edge.id with
      | some avgDuration =>
        let totalDuration :=
          match info.edgeTotalDurations with
          | some tot => (alistGet? tot edge.id).getD avgDuration
          | none => avgDuration
        let pathFrequency := jsOrNat info.frequency 1
        { base with
          label := fmt avgDuration
          pathDuration := some avgDuration
          pathFrequency := some pathFrequency
          tooltipMeanTime := fmt avgDuration
          tooltipTotalTime := fmt totalDuration
          caseCount := (pathFrequency : ℚ) }
      | none => base
    | none => base
  | none => base

/-- One full `computeLayout` call as a state transition.  The external ELK
delegate is abstracted as the already-awaited `layoutResult` (position per
node id, or an error); every failure inside the `try` block lands in the
`.error` branch, whose only effect is resetting the loading flag. -/
def computeLayoutStep (palette : ℚ → ℚ → ℚ → String) (fmt : ℚ → String)
    (st : GraphStoreState) (allNodes : List GNode) (allEdges : List GEdge)
    (filteredNodeIds : List String) (filteredEdgeIds : Option (List String))
    (activePathInfo : Option ActivePathInfo)
    (searchCasePathInfo : Option SearchCasePathInfo)
    (layoutResult : Except String (List (String × ℚ × ℚ))) : GraphStoreState :=
  let elems := elementsToLayout allNodes allEdges filteredNodeIds filteredEdgeIds
    activePathInfo searchCasePathInfo
  let nodesToLayout := elems.1
  let edgesToLayout := elems.2
  if nodesToLayout.isEmpty then
    { st with layoutedNodes := [], layoutedEdges := [], isLayoutLoading := false }
  else
    match layoutResult with
    | .error _ =>
      { st with isLayoutLoading := false, loadingMessage := layoutComputingMessage }
    | .ok placed =>
      let newLayoutedNodes := nodesToLayout.map (fun node =>
        match placed.find? (fun pr => pr.1 = node.id) with
        | some pr => { node with x := pr.2.1, y := pr.2.2 }
        | none => { node with x := 0, y := 0 })
      let nonGhostWeights :=
        (edgesToLayout.filter (fun e => !e.isGhost)).map GEdge.weight
      let mm : ℚ × ℚ :=
        match nonGhostWeights.min?, nonGhostWeights.max? with
        | some mn, some mx => if mn = mx then (mn, mn + 1) else (mn, mx)
        | _, _ => ((0 : ℚ), 1)
      let coloredEdges := edgesToLayout.map (fun edge =>
        if edge.isGhost then enrichGhostEdge fmt activePathInfo edge
        else colorNormalEdge palette fmt activePathInfo mm.1 mm.2 edge)
      { st with
        layoutedNodes := newLayoutedNodes
        layoutedEdges := coloredEdges
        isLayoutLoading := false
        loadingMessage := layoutComputingMessage }

/-! ### EdgeOverrideResolver (`calculateEdgeOverride` in `store/useGraphStore.ts`) -/

/-- The resolver's result: `displayLabel` plus the flattened
`tooltipOverride` payload. -/
structure EdgeOverride where
  displayLabel : String
  label : ℕ
  meanTime : String
  totalTime : String
  rawDuration : Option ℚ := none

/-- One occurrence of the edge inside the active path
(`edgeIndices.forEach` in `calculateEdgeOverride`): when both cumulative
timestamps around the occurrence exist, add the clamped delta and count the
traversal. -/
def occurrenceStep (vt : List ℚ) (si : ℕ) (acc : ℚ × ℕ) (idx : ℕ) : ℚ × ℕ :=
  match vt[si + idx]?, vt[si + idx + 1]? with
  | some tStart, some tEnd => (acc.1 + max 0 (tEnd - tStart), acc.2 + 1)
  | _, _ => acc

/-- `calculateEdgeOverride(edge, activePath)`: (a) use the per-edge
average-duration map when it contains the edge id; (b) otherwise sum the
clamped cumulative-timing deltas over the edge's occurrences in the path's
edge list; (c) otherwise `null`.  `fmt` abstracts `formatDuration`. -/
def calculateEdgeOverride (fmt : ℚ → String) (edge : GEdge)
    (activePath : Option ExtendedPath) : Option EdgeOverride :=
  match activePath with
  | none => none
  | some p =>
    let pathEdges := p.edges
    let edgeIndices := (pathEdges.enum.filter (fun kv => kv.2 = edge.id)).map Prod.fst
    let branchB : Option EdgeOverride :=
      match p._variantTimings, p._startIndex with
      | some vt, some si =>
        if 0 < edgeIndices.length ∧ 0 < vt.length then
          let res := edgeIndices.foldl (occurrenceStep vt si) (0, 0)
          let totalDuration := res.1
          let count := res.2
          if 0 < count then
            let displayLabel := fmt totalDuration
            let frequency := jsOrNat p._frequency 0
            some { displayLabel := displayLabel
                   label := frequency
                   meanTime :=
                     if 1 < count
                     then displayLabel ++ " (مجموع " ++ toString count ++ " بار عبور)"
                     else displayLabel
                   totalTime := fmt (totalDuration * (frequency : ℚ)) }
          else none
        else none
      | _, _ => none
    match p._specificEdgeDurations with
    | some durs =>
      match alistGet? durs edge.id with
      | some avgDuration =>
        let displayLabel := fmt avgDuration
        let pathFrequency := jsOrNat p._frequency (jsOrNat p.frequency 1)
        let totalDuration :=
          match p._specificTotalDurations with
          | some tot => (alistGet? tot edge.id).getD avgDuration
          | none => avgDuration
        some { displayLabel := displayLabel
               label := pathFrequency
               meanTime := displayLabel ++ " (میانگین)"
               totalTime := fmt totalDuration
               rawDuration := some avgDuration }
      | none => branchB
    | none => branchB

/-! ### Spec-side index resolution (for checking the extractor against §4.4) -/

/-- Modelled from the spec's words (§4.4): position `i` holds the FIRST
occurrence of `x` in `l`. -/
def isFirstOccurrence (l : List String) (x : String) (i : ℕ) : Prop :=
  l.get? i = some x ∧ ∀ j < i, l.get? j ≠ some x

/-- Modelled from the spec's words (§4.4): position `i` holds the LAST
occurrence of `x` in `l`. -/
def isLastOccurrence (l : List String) (x : String) (i : ℕ) : Prop :=
  l.get? i = some x ∧ ∀ j, i < j → l.get? j ≠ some x

/-- Modelled from the spec's words (§4.4): `si` is the resolved start index —
the first occurrence of `startId`, or `0` when `startId` is the START
sentinel. -/
def resolvedStart (startId : String) (v : Variant) (si : ℕ) : Prop :=
  if startId = START_NODE then si = 0
  else isFirstOccurrence v.path startId si

/-- Modelled from the spec's words (§4.4): `ei` is the resolved end index —
the last occurrence of `endId`, or `path.length - 1` when `endId` is the END
sentinel (which requires a non-empty trace). -/
def resolvedEnd (endId : String) (v : Variant) (ei : ℕ) : Prop :=
  if endId = END_NODE then v.path ≠ [] ∧ ei = v.path.length - 1
  else isLastOccurrence v.path endId ei

/-! ### Statement helpers -/

/-- `Σ (p.frequency || 0)` over a path list (the aggregator's output total). -/
def outFreqSum (ps : List ExtendedPath) : ℕ :=
  (ps.map (fun p => p.frequency.getD 0)).sum

/-- The group of a key inside a path list: the paths whose joined node
sequence is `K`. -/
def groupOf (K : String) (ps : List ExtendedPath) : List ExtendedPath :=
  ps.filter (fun p => pathKey p = K)

/-- A path's recorded per-edge average duration at edge id `e` (`0` when the
record is missing or lacks the key). -/
def pathEdgeDur (p : ExtendedPath) (e : String) : ℚ :=
  (alistGet? (p._specificEdgeDurations.getD []) e).getD 0

/-- Whether a path's per-edge average-duration record contains edge id `e`. -/
def pathHasEdge (p : ExtendedPath) (e : String) : Bool :=
  (alistGet? (p._specificEdgeDurations.getD []) e).isSome

/-- A path's recorded per-edge total duration at edge id `e`. -/
def pathEdgeTot (p : ExtendedPath) (e : String) : ℚ :=
  (alistGet? (p._specificTotalDurations.getD []) e).getD 0

/-- Whether a path's per-edge total-duration record contains edge id `e`. -/
def pathHasTot (p : ExtendedPath) (e : String) : Bool :=
  (alistGet? (p._specificTotalDurations.getD []) e).isSome

/-- A record has no duplicated keys (true of every `Record<string, number>`
object, in particular of those the extractor builds). -/
def recNodup (r : Option (List (String × ℚ))) : Prop :=
  (alistKeys (r.getD [])).Nodup

/-- Modelled from the spec's words (C8(b)): the clamped timing deltas of the
edge's occurrences, summed once per occurrence; an occurrence whose
surrounding timestamps are not both present contributes nothing. -/
def occSum (vt : List ℚ) (si : ℕ) (idxs : List ℕ) : ℚ :=
  (idxs.map (fun idx =>
    match vt[si + idx]?, vt[si + idx + 1]? with
    | some a, some b => max 0 (b - a)
    | _, _ => 0)).sum

/-- The number of the edge's occurrences whose surrounding timestamps are both
present in the cumulative timing array. -/
def occCount (vt : List ℚ) (si : ℕ) (idxs : List ℕ) : ℕ :=
  idxs.countP (fun idx => (vt[si + idx]?).isSome && (vt[si + idx + 1]?).isSome)

/-! ## Helper lemmas: association lists -/

theorem alistGet?_alistSet_self {α : Type} (m : List (String × α)) (k : String)
    (v : α) : alistGet? (alistSet m k v) k = some v := by
  induction m with
  | nil => simp [alistSet, alistGet?]
  | cons hd t ih =>
    obtain ⟨k', v'⟩ := hd
    by_cases h : k' = k
    · simp [alistSet, alistGet?, h]
    · simp [alistSet, alistGet?, h, ih]

theorem alistGet?_alistSet_ne {α : Type} (m : List (String × α)) {k k' : String}
    (v : α) (h : k' ≠ k) : alistGet? (alistSet m k v) k' = alistGet? m k' := by
  induction m with
  | nil => simp [alistSet, alistGet?, Ne.symm h]
  | cons hd t ih =>
    obtain ⟨k0, v0⟩ := hd
    by_cases h0 : k0 = k
    · subst h0
      simp [alistSet, alistGet?, Ne.symm h]
    · simp only [alistSet, if_neg h0, alistGet?]
      by_cases h1 : k0 = k'
      · simp [h1]
      · simp [h1, ih]

theorem alistSet_of_get?_none {α : Type} {m : List (String × α)} {k : String}
    (v : α) (h : alistGet? m k = none) : alistSet m k v = m ++ [(k, v)] := by
  induction m with
  | nil => simp [alistSet]
  | cons hd t ih =>
    obtain ⟨k0, v0⟩ := hd
    simp only [alistGet?] at h
    by_cases h0 : k0 = k
    · simp [h0] at h
    · simp only [if_neg h0] at h
      simp [alistSet, h0, ih h]

theorem alistGet?_eq_none_iff {α : Type} (m : List (String × α)) (k : String) :
    alistGet? m k = none ↔ k ∉ alistKeys m := by
  induction m with
  | nil => simp [alistGet?, alistKeys]
  | cons hd t ih =>
    obtain ⟨k0, v0⟩ := hd
    rw [alistKeys] at ih ⊢
    by_cases h0 : k0 = k
    · subst h0
      simp [alistGet?]
    · simp only [alistGet?, if_neg h0, List.map_cons, List.mem_cons]
      rw [ih]
      constructor
      · intro h hk
        rcases hk with hk | hk
        · exact h0 hk.symm
        · exact h hk
      · intro h hk
        exact h (Or.inr hk)

theorem alistKeys_alistSet {α : Type} (m : List (String × α)) (k : String)
    (v : α) :
    alistKeys (alistSet m k v) =
      if k ∈ alistKeys m then alistKeys m else alistKeys m ++ [k] := by
  induction m with
  | nil => simp [alistSet, alistKeys]
  | cons hd t ih =>
    obtain ⟨k0, v0⟩ := hd
    by_cases h0 : k0 = k
    · simp [alistSet, alistKeys, h0]
    · simp only [alistSet, if_neg h0, alistKeys, List.map_cons]
      rw [alistKeys] at ih
      by_cases hm : k ∈ alistKeys t
      · rw [alistKeys] at hm
        simp [alistKeys, hm, ih, Ne.symm h0]
      · rw [alistKeys] at hm
        simp [alistKeys, hm, ih, Ne.symm h0]

theorem alistKeys_nodup_alistSet {α : Type} {m : List (String × α)}
    (k : String) (v : α) (h : (alistKeys m).Nodup) :
    (alistKeys (alistSet m k v)).Nodup := by
  rw [alistKeys_alistSet]
  by_cases hm : k ∈ alistKeys m
  · simpa [hm]
  · simp only [hm, if_false]
    simpa [List.nodup_append, hm] using h

theorem mem_alistSet {α : Type} {m : List (String × α)} {k : String} {v : α}
    {x : String × α} (hx : x ∈ alistSet m k v) : x ∈ m ∨ x = (k, v) := by
  induction m with
  | nil =>
    simp only [alistSet] at hx
    exact Or.inr (by simpa using hx)
  | cons hd t ih =>
    obtain ⟨k0, v0⟩ := hd
    by_cases h0 : k0 = k
    · simp only [alistSet, if_pos h0] at hx
      rcases List.mem_cons.mp hx with h | h
      · exact Or.inr h
      · exact Or.inl (List.mem_cons_of_mem _ h)
    · simp only [alistSet, if_neg h0] at hx
      rcases List.mem_cons.mp hx with h | h
      · exact Or.inl (by simp [h])
      · rcases ih h with h2 | h2
        · exact Or.inl (List.mem_cons_of_mem _ h2)
        · exact Or.inr h2

theorem alistGet?_of_mem_nodup {α : Type} {m : List (String × α)} {k : String}
    {v : α} (hnd : (alistKeys m).Nodup) (hm : (k, v) ∈ m) :
    alistGet? m k = some v := by
  induction m with
  | nil => simp at hm
  | cons hd t ih =>
    obtain ⟨k0, v0⟩ := hd
    simp only [alistKeys, List.map_cons, List.nodup_cons] at hnd
    rcases List.mem_cons.mp hm with h | h
    · have h1 : k = k0 := (Prod.ext_iff.mp h).1
      have h2 : v = v0 := (Prod.ext_iff.mp h).2
      subst h1
      subst h2
      simp [alistGet?]
    · have hk : k0 ≠ k := by
        intro hc
        subst hc
        exact hnd.1 (by simpa [alistKeys] using List.mem_map_of_mem Prod.fst h)
      simp [alistGet?, hk, ih hnd.2 h]

theorem find?_values_eq_alistGet {α : Type} (idf : α → String)
    (m : List (String × α)) (k : String)
    (hid : ∀ kv ∈ m, idf kv.2 = kv.1) :
    (m.map Prod.snd).find? (fun v => idf v = k) = alistGet? m k := by
  induction m with
  | nil => simp [alistGet?]
  | cons hd t ih =>
    obtain ⟨k0, v0⟩ := hd
    have h0 : idf v0 = k0 := hid (k0, v0) (List.mem_cons_self _ _)
    have ih2 := ih (fun kv hkv => hid kv (List.mem_cons_of_mem _ hkv))
    by_cases hk : k0 = k
    · simp [alistGet?, List.find?_cons, h0, hk]
    · simp [alistGet?, List.find?_cons, h0, hk, ih2]

/-! ## Helper lemmas: entry accumulation -/

theorem alistGet?_addEntries (acc entries : List (String × ℚ)) (v : ℚ → ℚ)
    (hnd : (alistKeys entries).Nodup) (e : String) :
    alistGet? (addEntries acc entries v) e =
      match alistGet? entries e with
      | some d => some ((alistGet? acc e).getD 0 + v d)
      | none => alistGet? acc e := by
  induction entries generalizing acc with
  | nil => simp [addEntries, alistGet?]
  | cons hd t ih =>
    obtain ⟨k, d⟩ := hd
    rw [alistKeys] at hnd
    simp only [List.map_cons, List.nodup_cons] at hnd
    have step : addEntries acc ((k, d) :: t) v =
        addEntries (alistSet acc k ((alistGet? acc k).getD 0 + v d)) t v := by
      simp [addEntries]
    rw [step, ih _ hnd.2]
    by_cases he : e = k
    · subst he
      have ht : alistGet? t e = none :=
        (alistGet?_eq_none_iff t e).mpr (by simpa [alistKeys] using hnd.1)
      simp [ht, alistGet?, alistGet?_alistSet_self]
    · rw [alistGet?_alistSet_ne _ _ he]
      have hk : ¬ (k = e) := fun hc => he hc.symm
      simp only [alistGet?, if_neg hk]

theorem alistGet?_buildfold (entries : List (String × ℚ)) (v : ℚ → ℚ)
    (acc : List (String × ℚ)) (hnd : (alistKeys entries).Nodup) (e : String) :
    alistGet? (entries.foldl (fun a kv => alistSet a kv.1 (v kv.2)) acc) e =
      match alistGet? entries e with
      | some d => some (v d)
      | none => alistGet? acc e := by
  induction entries generalizing acc with
  | nil => simp [alistGet?]
  | cons hd t ih =>
    obtain ⟨k, d⟩ := hd
    rw [alistKeys] at hnd
    simp only [List.map_cons, List.nodup_cons] at hnd
    have step : List.foldl (fun a kv => alistSet a kv.1 (v kv.2)) acc ((k, d) :: t) =
        List.foldl (fun a kv => alistSet a kv.1 (v kv.2)) (alistSet acc k (v d)) t := by
      simp
    rw [step, ih _ hnd.2]
    by_cases he : e = k
    · subst he
      have ht : alistGet? t e = none :=
        (alistGet?_eq_none_iff t e).mpr (by simpa [alistKeys] using hnd.1)
      simp [ht, alistGet?, alistGet?_alistSet_self]
    · rw [alistGet?_alistSet_ne _ _ he]
      have hk : ¬ (k = e) := fun hc => he hc.symm
      simp only [alistGet?, if_neg hk]

theorem alistGet?_buildEntries (entries : List (String × ℚ)) (v : ℚ → ℚ)
    (hnd : (alistKeys entries).Nodup) (e : String) :
    alistGet? (buildEntries entries v) e = (alistGet? entries e).map v := by
  rw [buildEntries, alistGet?_buildfold entries v [] hnd e]
  cases h : alistGet? entries e <;> simp [alistGet?]

/-! ## Helper lemmas: the group accumulator -/

theorem updateAcc_path (ex : GroupAcc) (p : ExtendedPath) :
    (updateAcc ex p).path = ex.path := rfl

theorem updateAcc_totalFrequency (ex : GroupAcc) (p : ExtendedPath) :
    (updateAcc ex p).totalFrequency = ex.totalFrequency + effFrequency p := rfl

theorem updateAcc_weightedTotalDuration (ex : GroupAcc) (p : ExtendedPath) :
    (updateAcc ex p).weightedTotalDuration =
      ex.weightedTotalDuration + (p.totalDuration.getD 0) * (effFrequency p : ℚ) :=
  rfl

theorem initAcc_totalFrequency (p : ExtendedPath) :
    (initAcc p).totalFrequency = effFrequency p := rfl

theorem initAcc_weightedTotalDuration (p : ExtendedPath) :
    (initAcc p).weightedTotalDuration =
      (p.totalDuration.getD 0) * (effFrequency p : ℚ) := rfl

theorem updateAcc_weighted_lookup (ex : GroupAcc) (p : ExtendedPath)
    (hnd : recNodup p._specificEdgeDurations) (e : String) :
    alistGet? (updateAcc ex p).weightedEdgeDurations e =
      if pathHasEdge p e then
        some ((alistGet? ex.weightedEdgeDurations e).getD 0 +
          pathEdgeDur p e * (effFrequency p : ℚ))
      else alistGet? ex.weightedEdgeDurations e := by
  cases hsed : p._specificEdgeDurations with
  | none =>
    simp [updateAcc, hsed, pathHasEdge, alistGet?]
  | some ent =>
    rw [recNodup, hsed] at hnd
    have : (updateAcc ex p).weightedEdgeDurations =
        addEntries ex.weightedEdgeDurations ent (· * (effFrequency p : ℚ)) := by
      simp [updateAcc, hsed]
    rw [this, alistGet?_addEntries _ _ _ (by simpa using hnd) e]
    cases hl : alistGet? ent e <;>
      simp [pathHasEdge, pathEdgeDur, hsed, hl]

theorem updateAcc_summed_lookup (ex : GroupAcc) (p : ExtendedPath)
    (hnd : recNodup p._specificTotalDurations) (e : String) :
    alistGet? (updateAcc ex p).summedEdgeTotalDurations e =
      if pathHasTot p e then
        some ((alistGet? ex.summedEdgeTotalDurations e).getD 0 + pathEdgeTot p e)
      else alistGet? ex.summedEdgeTotalDurations e := by
  cases hsed : p._specificTotalDurations with
  | none =>
    simp [updateAcc, hsed, pathHasTot, alistGet?]
  | some ent =>
    rw [recNodup, hsed] at hnd
    have : (updateAcc ex p).summedEdgeTotalDurations =
        addEntries ex.summedEdgeTotalDurations ent id := by
      simp [updateAcc, hsed]
    rw [this, alistGet?_addEntries _ _ _ (by simpa using hnd) e]
    cases hl : alistGet? ent e <;>
      simp [pathHasTot, pathEdgeTot, hsed, hl]

theorem initAcc_weighted_lookup (p : ExtendedPath)
    (hnd : recNodup p._specificEdgeDurations) (e : String) :
    alistGet? (initAcc p).weightedEdgeDurations e =
      if pathHasEdge p e then some (pathEdgeDur p e * (effFrequency p : ℚ))
      else none := by
  cases hsed : p._specificEdgeDurations with
  | none => simp [initAcc, hsed, pathHasEdge, alistGet?]
  | some ent =>
    rw [recNodup, hsed] at hnd
    have : (initAcc p).weightedEdgeDurations =
        buildEntries ent (· * (effFrequency p : ℚ)) := by
      simp [initAcc, buildEntries, hsed]
    rw [this, alistGet?_buildEntries _ _ (by simpa using hnd) e]
    cases hl : alistGet? ent e <;>
      simp [pathHasEdge, pathEdgeDur, hsed, hl]

theorem initAcc_summed_lookup (p : ExtendedPath)
    (hnd : recNodup p._specificTotalDurations) (e : String) :
    alistGet? (initAcc p).summedEdgeTotalDurations e =
      if pathHasTot p e then some (pathEdgeTot p e) else none := by
  cases hsed : p._specificTotalDurations with
  | none => simp [initAcc, hsed, pathHasTot, alistGet?]
  | some ent =>
    rw [recNodup, hsed] at hnd
    have : (initAcc p).summedEdgeTotalDurations = buildEntries ent id := by
      simp [initAcc, buildEntries, hsed]
    rw [this, alistGet?_buildEntries _ _ (by simpa using hnd) e]
    cases hl : alistGet? ent e <;>
      simp [pathHasTot, pathEdgeTot, hsed, hl]

theorem pathEdgeDur_eq_zero_of_not_hasEdge {p : ExtendedPath} {e : String}
    (h : ¬ pathHasEdge p e = true) : pathEdgeDur p e = 0 := by
  rw [pathEdgeDur]
  rcases h2 : alistGet? (p._specificEdgeDurations.getD []) e with _ | d
  · rfl
  · exact absurd (by rw [pathHasEdge, h2]; rfl) h

theorem pathEdgeTot_eq_zero_of_not_hasTot {p : ExtendedPath} {e : String}
    (h : ¬ pathHasTot p e = true) : pathEdgeTot p e = 0 := by
  rw [pathEdgeTot]
  rcases h2 : alistGet? (p._specificTotalDurations.getD []) e with _ | d
  · rfl
  · exact absurd (by rw [pathHasTot, h2]; rfl) h

theorem foldl_updateAcc_path (g : GroupAcc) (ps : List ExtendedPath) :
    (ps.foldl updateAcc g).path = g.path := by
  induction ps generalizing g with
  | nil => rfl
  | cons p t ih => rw [List.foldl_cons, ih, updateAcc_path]

theorem foldl_updateAcc_totalFrequency (g : GroupAcc) (ps : List ExtendedPath) :
    (ps.foldl updateAcc g).totalFrequency =
      g.totalFrequency + (ps.map effFrequency).sum := by
  induction ps generalizing g with
  | nil => simp
  | cons p t ih =>
    rw [List.foldl_cons, ih, updateAcc_totalFrequency]
    simp [Nat.add_assoc]

theorem foldl_updateAcc_weightedTotalDuration (g : GroupAcc)
    (ps : List ExtendedPath) :
    (ps.foldl updateAcc g).weightedTotalDuration =
      g.weightedTotalDuration +
        (ps.map (fun p => (p.totalDuration.getD 0) * (effFrequency p : ℚ))).sum := by
  induction ps generalizing g with
  | nil => simp
  | cons p t ih =>
    rw [List.foldl_cons, ih, updateAcc_weightedTotalDuration]
    simp [add_assoc]

theorem foldl_updateAcc_weighted_match (g : GroupAcc) (ps : List ExtendedPath)
    (hnd : ∀ p ∈ ps, recNodup p._specificEdgeDurations) (e : String) :
    alistGet? (ps.foldl updateAcc g).weightedEdgeDurations e =
      match alistGet? g.weightedEdgeDurations e with
      | some w =>
        some (w + (ps.map (fun p => pathEdgeDur p e * (effFrequency p : ℚ))).sum)
      | none =>
        if ps.any (fun p => pathHasEdge p e)
        then some ((ps.map (fun p => pathEdgeDur p e * (effFrequency p : ℚ))).sum)
        else none := by
  induction ps generalizing g with
  | nil => cases h : alistGet? g.weightedEdgeDurations e <;> simp [h]
  | cons p t ih =>
    have hp := hnd p (List.mem_cons_self _ _)
    have ht := fun q hq => hnd q (List.mem_cons_of_mem p hq)
    rw [List.foldl_cons, ih _ ht, updateAcc_weighted_lookup g p hp e]
    by_cases hpe : pathHasEdge p e
    · simp only [if_pos hpe]
      cases hg : alistGet? g.weightedEdgeDurations e
      · simp [hg, hpe, add_assoc]
      · simp [hg, hpe, add_assoc]
    · have hd0 : pathEdgeDur p e = 0 := pathEdgeDur_eq_zero_of_not_hasEdge hpe
      simp only [if_neg hpe]
      cases hg : alistGet? g.weightedEdgeDurations e
      · simp only [hg]
        have hany : ((p :: t).any (fun q => pathHasEdge q e)) =
            (t.any (fun q => pathHasEdge q e)) := by
          simp [List.any_cons, Bool.eq_false_iff.mpr hpe]
        rw [hany]
        by_cases h2 : t.any (fun q => pathHasEdge q e)
        · simp [h2, hd0]
        · simp [h2]
      · simp [hg, hd0]

theorem foldl_updateAcc_summed_match (g : GroupAcc) (ps : List ExtendedPath)
    (hnd : ∀ p ∈ ps, recNodup p._specificTotalDurations) (e : String) :
    alistGet? (ps.foldl updateAcc g).summedEdgeTotalDurations e =
      match alistGet? g.summedEdgeTotalDurations e with
      | some w => some (w + (ps.map (fun p => pathEdgeTot p e)).sum)
      | none =>
        if ps.any (fun p => pathHasTot p e)
        then some ((ps.map (fun p => pathEdgeTot p e)).sum)
        else none := by
  induction ps generalizing g with
  | nil => cases h : alistGet? g.summedEdgeTotalDurations e <;> simp [h]
  | cons p t ih =>
    have hp := hnd p (List.mem_cons_self _ _)
    have ht := fun q hq => hnd q (List.mem_cons_of_mem p hq)
    rw [List.foldl_cons, ih _ ht, updateAcc_summed_lookup g p hp e]
    by_cases hpe : pathHasTot p e
    · simp only [if_pos hpe]
      cases hg : alistGet? g.summedEdgeTotalDurations e
      · simp [hg, hpe, add_assoc]
      · simp [hg, hpe, add_assoc]
    · have hd0 : pathEdgeTot p e = 0 := pathEdgeTot_eq_zero_of_not_hasTot hpe
      simp only [if_neg hpe]
      cases hg : alistGet? g.summedEdgeTotalDurations e
      · simp only [hg]
        have hany : ((p :: t).any (fun q => pathHasTot q e)) =
            (t.any (fun q => pathHasTot q e)) := by
          simp [List.any_cons, Bool.eq_false_iff.mpr hpe]
        rw [hany]
        by_cases h2 : t.any (fun q => pathHasTot q e)
        · simp [h2, hd0]
        · simp [h2]
      · simp [hg, hd0]

/-! ## Helper lemmas: the aggregation map fold -/

theorem alistGet?_foldl_aggStep (ps : List ExtendedPath)
    (m : List (String × GroupAcc)) (K : String) :
    alistGet? (ps.foldl aggStep m) K =
      match alistGet? m K, groupOf K ps with
      | some g, gr => some (gr.foldl updateAcc g)
      | none, [] => none
      | none, p :: gr => some (gr.foldl updateAcc (initAcc p)) := by
  induction ps generalizing m with
  | nil => cases h : alistGet? m K <;> simp [groupOf, h]
  | cons p t ih =>
    rw [List.foldl_cons]
    by_cases hk : pathKey p = K
    · have hgr : groupOf K (p :: t) = p :: groupOf K t := by
        simp [groupOf, List.filter_cons, hk]
      cases hm : alistGet? m K with
      | some g =>
        have hstep : aggStep m p = alistSet m K (updateAcc g p) := by
          rw [aggStep, hk, hm]
        rw [hstep, ih]
        rw [alistGet?_alistSet_self]
        simp [hgr]
      | none =>
        have hstep : aggStep m p = alistSet m K (initAcc p) := by
          rw [aggStep, hk, hm]
        rw [hstep, ih]
        rw [alistGet?_alistSet_self]
        simp [hgr]
    · have hgr : groupOf K (p :: t) = groupOf K t := by
        simp [groupOf, List.filter_cons, hk]
      have hset : alistGet? (aggStep m p) K = alistGet? m K := by
        rw [aggStep]
        cases hm : alistGet? m (pathKey p) <;>
          exact alistGet?_alistSet_ne _ _ (fun hc => hk hc.symm)
      rw [ih, hset, hgr]

theorem aggStep_keys_nodup (ps : List ExtendedPath)
    (m : List (String × GroupAcc)) (h : (alistKeys m).Nodup) :
    (alistKeys (ps.foldl aggStep m)).Nodup := by
  induction ps generalizing m with
  | nil => exact h
  | cons p t ih =>
    rw [List.foldl_cons]
    apply ih
    rw [aggStep]
    cases alistGet? m (pathKey p) <;> exact alistKeys_nodup_alistSet _ _ h

theorem alistGet?_mem {α : Type} {m : List (String × α)} {k : String} {v : α}
    (h : alistGet? m k = some v) : (k, v) ∈ m := by
  induction m with
  | nil => simp [alistGet?] at h
  | cons hd t ih =>
    obtain ⟨k0, v0⟩ := hd
    rw [alistGet?] at h
    by_cases h0 : k0 = k
    · rw [if_pos h0] at h
      have h2 := Option.some.inj h
      exact List.mem_cons.mpr (Or.inl (by rw [h0, h2]))
    · rw [if_neg h0] at h
      exact List.mem_cons.mpr (Or.inr (ih h))

theorem aggStep_key_inv (ps : List ExtendedPath) (m : List (String × GroupAcc))
    (hm : ∀ kv ∈ m, pathKey kv.2.path = kv.1) :
    ∀ kv ∈ ps.foldl aggStep m, pathKey kv.2.path = kv.1 := by
  induction ps generalizing m with
  | nil => exact hm
  | cons p t ih =>
    rw [List.foldl_cons]
    apply ih
    intro kv hkv
    rw [aggStep] at hkv
    cases hl : alistGet? m (pathKey p) with
    | some g =>
      rw [hl] at hkv
      rcases mem_alistSet hkv with h | h
      · exact hm kv h
      · subst h
        have hgm : (pathKey p, g) ∈ m := alistGet?_mem hl
        simpa [updateAcc_path] using hm (pathKey p, g) hgm
    | none =>
      rw [hl] at hkv
      rcases mem_alistSet hkv with h | h
      · exact hm kv h
      · subst h
        rfl

theorem sum_map_alistSet_replace {α : Type} (f : String × α → ℕ)
    (m : List (String × α)) {k : String} {ex : α} (v : α)
    (h : alistGet? m k = some ex) :
    ((alistSet m k v).map f).sum + f (k, ex) = (m.map f).sum + f (k, v) := by
  induction m with
  | nil => simp [alistGet?] at h
  | cons hd t ih =>
    obtain ⟨k0, v0⟩ := hd
    rw [alistGet?] at h
    by_cases h0 : k0 = k
    · rw [if_pos h0] at h
      have h2 := Option.some.inj h
      subst h0
      subst h2
      simp only [alistSet, if_true, eq_self_iff_true, List.map_cons, List.sum_cons]
      omega
    · rw [if_neg h0] at h
      simp only [alistSet, if_neg h0, List.map_cons, List.sum_cons]
      have := ih h
      omega

theorem freqSum_foldl_aggStep (ps : List ExtendedPath)
    (m : List (String × GroupAcc)) :
    ((ps.foldl aggStep m).map (fun kv => kv.2.totalFrequency)).sum =
      ((m.map (fun kv => kv.2.totalFrequency)).sum) + (ps.map effFrequency).sum := by
  induction ps generalizing m with
  | nil => simp
  | cons p t ih =>
    rw [List.foldl_cons, ih]
    have hstep : ((aggStep m p).map (fun kv => kv.2.totalFrequency)).sum =
        (m.map (fun kv => kv.2.totalFrequency)).sum + effFrequency p := by
      cases hl : alistGet? m (pathKey p) with
      | some ex =>
        have hagg : aggStep m p = alistSet m (pathKey p) (updateAcc ex p) := by
          rw [aggStep, hl]
        rw [hagg]
        have h2 := sum_map_alistSet_replace (fun kv => kv.2.totalFrequency) m
          (updateAcc ex p) hl
        simp only [updateAcc_totalFrequency] at h2
        omega
      | none =>
        have hagg : aggStep m p = alistSet m (pathKey p) (initAcc p) := by
          rw [aggStep, hl]
        rw [hagg, alistSet_of_get?_none _ hl]
        simp [initAcc_totalFrequency]
    rw [hstep]
    simp only [List.map_cons, List.sum_cons]
    omega

/-! ## Helper lemmas: key-set invariants of the accumulator records -/

theorem foldl_alistSet_keys_nodup {α β : Type} (l : List β) (key : β → String)
    (val : List (String × α) → β → α) (acc : List (String × α))
    (h : (alistKeys acc).Nodup) :
    (alistKeys (l.foldl (fun a b => alistSet a (key b) (val a b)) acc)).Nodup := by
  induction l generalizing acc with
  | nil => exact h
  | cons b t ih => exact ih _ (alistKeys_nodup_alistSet _ _ h)

theorem addEntries_keys_nodup (acc entries : List (String × ℚ)) (v : ℚ → ℚ)
    (h : (alistKeys acc).Nodup) : (alistKeys (addEntries acc entries v)).Nodup :=
  foldl_alistSet_keys_nodup entries (fun kv => kv.1)
    (fun a kv => (alistGet? a kv.1).getD 0 + v kv.2) acc h

theorem buildEntries_keys_nodup (entries : List (String × ℚ)) (v : ℚ → ℚ) :
    (alistKeys (buildEntries entries v)).Nodup :=
  foldl_alistSet_keys_nodup entries (fun kv => kv.1) (fun _ kv => v kv.2) []
    (by simp [alistKeys])

theorem updateAcc_weighted_nodup (ex : GroupAcc) (p : ExtendedPath)
    (h : (alistKeys ex.weightedEdgeDurations).Nodup) :
    (alistKeys (updateAcc ex p).weightedEdgeDurations).Nodup := by
  cases hsed : p._specificEdgeDurations with
  | none => simpa [updateAcc, hsed] using h
  | some ent =>
    have : (updateAcc ex p).weightedEdgeDurations =
        addEntries ex.weightedEdgeDurations ent (· * (effFrequency p : ℚ)) := by
      simp [updateAcc, hsed]
    rw [this]
    exact addEntries_keys_nodup _ _ _ h

theorem updateAcc_summed_nodup (ex : GroupAcc) (p : ExtendedPath)
    (h : (alistKeys ex.summedEdgeTotalDurations).Nodup) :
    (alistKeys (updateAcc ex p).summedEdgeTotalDurations).Nodup := by
  cases hsed : p._specificTotalDurations with
  | none => simpa [updateAcc, hsed] using h
  | some ent =>
    have : (updateAcc ex p).summedEdgeTotalDurations =
        addEntries ex.summedEdgeTotalDurations ent id := by
      simp [updateAcc, hsed]
    rw [this]
    exact addEntries_keys_nodup _ _ _ h

theorem initAcc_weighted_nodup (p : ExtendedPath) :
    (alistKeys (initAcc p).weightedEdgeDurations).Nodup := by
  cases hsed : p._specificEdgeDurations with
  | none => simp [initAcc, hsed, alistKeys]
  | some ent =>
    have : (initAcc p).weightedEdgeDurations =
        buildEntries ent (· * (effFrequency p : ℚ)) := by
      simp [initAcc, buildEntries, hsed]
    rw [this]
    exact buildEntries_keys_nodup _ _

theorem initAcc_summed_nodup (p : ExtendedPath) :
    (alistKeys (initAcc p).summedEdgeTotalDurations).Nodup := by
  cases hsed : p._specificTotalDurations with
  | none => simp [initAcc, hsed, alistKeys]
  | some ent =>
    have : (initAcc p).summedEdgeTotalDurations = buildEntries ent id := by
      simp [initAcc, buildEntries, hsed]
    rw [this]
    exact buildEntries_keys_nodup _ _

theorem foldl_updateAcc_weighted_nodup (g : GroupAcc) (ps : List ExtendedPath)
    (h : (alistKeys g.weightedEdgeDurations).Nodup) :
    (alistKeys ((ps.foldl updateAcc g).weightedEdgeDurations)).Nodup := by
  induction ps generalizing g with
  | nil => exact h
  | cons p t ih => exact ih _ (updateAcc_weighted_nodup _ _ h)

theorem foldl_updateAcc_summed_nodup (g : GroupAcc) (ps : List ExtendedPath)
    (h : (alistKeys g.summedEdgeTotalDurations).Nodup) :
    (alistKeys ((ps.foldl updateAcc g).summedEdgeTotalDurations)).Nodup := by
  induction ps generalizing g with
  | nil => exact h
  | cons p t ih => exact ih _ (updateAcc_summed_nodup _ _ h)

theorem alist_value_unique {α : Type} {m : List (String × α)}
    (hnd : (alistKeys m).Nodup) {k : String} {a b : α} (ha : (k, a) ∈ m)
    (hb : (k, b) ∈ m) : a = b := by
  have h1 := alistGet?_of_mem_nodup hnd ha
  have h2 := alistGet?_of_mem_nodup hnd hb
  rw [h1] at h2
  exact Option.some.inj h2

/-! ## Helper lemmas: the merged path -/

theorem finalizeGroup_frequency (g : GroupAcc) :
    (finalizeGroup g).frequency = some g.totalFrequency := rfl

theorem finalizeGroup_nodes (g : GroupAcc) :
    (finalizeGroup g).nodes = g.path.nodes := rfl

theorem finalizeGroup_totalDuration (g : GroupAcc) :
    (finalizeGroup g).totalDuration =
      some (g.weightedTotalDuration / (g.totalFrequency : ℚ)) := rfl

theorem finalizeGroup_std (g : GroupAcc) :
    (finalizeGroup g)._specificTotalDurations =
      some g.summedEdgeTotalDurations := rfl

theorem finalizeGroup_sed_lookup (g : GroupAcc)
    (hnd : (alistKeys g.weightedEdgeDurations).Nodup) (e : String) :
    alistGet? ((finalizeGroup g)._specificEdgeDurations.getD []) e =
      (alistGet? g.weightedEdgeDurations e).map (· / (g.totalFrequency : ℚ)) := by
  have h1 : (finalizeGroup g)._specificEdgeDurations =
      some (g.weightedEdgeDurations.foldl
        (fun a kv => alistSet a kv.1 (kv.2 / (g.totalFrequency : ℚ))) []) := rfl
  rw [h1]
  simp only [Option.getD_some]
  have h3 := alistGet?_buildfold g.weightedEdgeDurations
    (fun x => x / (g.totalFrequency : ℚ)) [] hnd e
  simp only [h3]
  cases h : alistGet? g.weightedEdgeDurations e <;> simp [h, alistGet?]

/-! ## Claim C5 — empty node filter is the identity -/

/-- Claim C5: for every graph, filtering with an empty kept-node-id set is the
identity — the full node and edge lists pass through unchanged (both when no
kept-edge-id set is supplied and when an empty one is), and this holds whether
or not an active path is being isolated. -/
theorem C5_filter_empty_means_all (nodes : List GNode) (edges : List GEdge)
    (hasActivePath : Bool) :
    subgraphFilter nodes edges [] none hasActivePath = (nodes, edges) ∧
    subgraphFilter nodes edges [] (some []) hasActivePath = (nodes, edges) := by
  constructor <;> simp [subgraphFilter]

/-! ## Claim C9 — layout failure keeps the previous layout -/

/-- Claim C9: when the element list is non-empty (so the external delegate is
actually invoked) and the delegate fails, `computeLayout` leaves the
previously layouted node and edge lists unchanged and resets the loading
flag; the failure is absorbed into a normal state transition, never
propagated. -/
theorem C9_layout_failure_keeps_previous_layout
    (palette : ℚ → ℚ → ℚ → String) (fmt : ℚ → String) (st : GraphStoreState)
    (allNodes : List GNode) (allEdges : List GEdge)
    (filteredNodeIds : List String) (filteredEdgeIds : Option (List String))
    (activePathInfo : Option ActivePathInfo)
    (searchCasePathInfo : Option SearchCasePathInfo) (err : String)
    (hne : (elementsToLayout allNodes allEdges filteredNodeIds filteredEdgeIds
      activePathInfo searchCasePathInfo).1.isEmpty = false) :
    (computeLayoutStep palette fmt st allNodes allEdges filteredNodeIds
        filteredEdgeIds activePathInfo searchCasePathInfo
        (.error err)).layoutedNodes = st.layoutedNodes ∧
    (computeLayoutStep palette fmt st allNodes allEdges filteredNodeIds
        filteredEdgeIds activePathInfo searchCasePathInfo
        (.error err)).layoutedEdges = st.layoutedEdges ∧
    (computeLayoutStep palette fmt st allNodes allEdges filteredNodeIds
        filteredEdgeIds activePathInfo searchCasePathInfo
        (.error err)).isLayoutLoading = false := by
  rw [computeLayoutStep]
  simp [hne]

/-- Witness for C9 at a concrete input: one node survives filtering, the
delegate fails, and the previous layout (one node with id `prev`) is kept. -/
theorem C9_layout_failure_witness :
    ((elementsToLayout [{ id := "a" }] [] [] none none none).1.isEmpty = false) ∧
    (computeLayoutStep (fun _ _ _ => "") (fun _ => "")
        { layoutedNodes := [{ id := "prev" }], layoutedEdges := [],
          isLayoutLoading := true, loadingMessage := "m" }
        [{ id := "a" }] [] [] none none none
        (.error "boom")).layoutedNodes = [{ id := "prev" }] :=
  ⟨rfl,
    (C9_layout_failure_keeps_previous_layout (fun _ _ _ => "") (fun _ => "")
      { layoutedNodes := [{ id := "prev" }], layoutedEdges := [],
        isLayoutLoading := true, loadingMessage := "m" }
      [{ id := "a" }] [] [] none none none "boom" rfl).1⟩

/-! ## Claim C6 — ghost overlay additivity -/

/-- Claim C6 counterexample: the claim asserts that ghost injection never
duplicates an id, but injecting the active path `[A, B, A]` (a looping path
whose node `A` is outside the filtered graph) into the empty filtered graph
appends one ghost node per occurrence, so the node id `A` appears twice in
the result. -/
theorem C6_counterexample :
    ((ghostInject [] [] ["A", "B", "A"] []).1.map GNode.id = ["A", "B", "A"]) ∧
    ¬ ((ghostInject [] [] ["A", "B", "A"] []).1.map GNode.id).Nodup := by
  refine ⟨rfl, ?_⟩
  rw [show ((ghostInject [] [] ["A", "B", "A"] []).1.map GNode.id)
      = ["A", "B", "A"] from rfl]
  decide

/-- Claim C6 (amended): ghost overlay injection is purely additive — the
filtered nodes and edges are kept at the front, unmodified; every injected
element is marked ghost and its id never collides with an existing id; and
every node id and edge id referenced by the active path appears in the
result.  (However, a path node id that is absent from the graph and repeated
in the path is injected once per occurrence, so injected ids may repeat —
this is the one part of the original claim that fails.) -/
theorem C6_ghost_additivity (nodes : List GNode) (edges : List GEdge)
    (pathNodes pathEdges : List String) :
    (∃ gh, (ghostInject nodes edges pathNodes pathEdges).1 = nodes ++ gh ∧
      ∀ g ∈ gh, g.isGhost = true ∧ g.id ∉ nodes.map GNode.id) ∧
    (∃ ge, (ghostInject nodes edges pathNodes pathEdges).2 = edges ++ ge ∧
      ∀ g ∈ ge, g.isGhost = true ∧ g.id ∉ edges.map GEdge.id) ∧
    (∀ id ∈ pathNodes,
      id ∈ (ghostInject nodes edges pathNodes pathEdges).1.map GNode.id) ∧
    (∀ id ∈ pathEdges,
      id ∈ (ghostInject nodes edges pathNodes pathEdges).2.map GEdge.id) := by
  refine ⟨⟨(pathNodes.filter
      (fun id => !((nodes.map GNode.id).contains id))).map ghostNodeOf,
        rfl, ?_⟩,
    ⟨(pathEdges.filter
      (fun id => !((edges.map GEdge.id).contains id))).map ghostEdgeOf,
        rfl, ?_⟩, ?_, ?_⟩
  · intro g hg
    rcases List.mem_map.mp hg with ⟨id0, hid0, rfl⟩
    refine ⟨rfl, ?_⟩
    have hf := (List.mem_filter.mp hid0).2
    simpa [ghostNodeOf] using hf
  · intro g hg
    rcases List.mem_map.mp hg with ⟨id0, hid0, rfl⟩
    refine ⟨rfl, ?_⟩
    have hf := (List.mem_filter.mp hid0).2
    simpa [ghostEdgeOf] using hf
  · intro id hid
    rw [show (ghostInject nodes edges pathNodes pathEdges).1
        = nodes ++ (pathNodes.filter
          (fun i => !((nodes.map GNode.id).contains i))).map ghostNodeOf from rfl]
    rw [List.map_append]
    by_cases hc : id ∈ nodes.map GNode.id
    · exact List.mem_append.mpr (Or.inl hc)
    · refine List.mem_append.mpr (Or.inr ?_)
      rw [List.map_map]
      refine List.mem_map.mpr ⟨id, ?_, rfl⟩
      exact List.mem_filter.mpr ⟨hid, by simpa using hc⟩
  · intro id hid
    rw [show (ghostInject nodes edges pathNodes pathEdges).2
        = edges ++ (pathEdges.filter
          (fun i => !((edges.map GEdge.id).contains i))).map ghostEdgeOf from rfl]
    rw [List.map_append]
    by_cases hc : id ∈ edges.map GEdge.id
    · exact List.mem_append.mpr (Or.inl hc)
    · refine List.mem_append.mpr (Or.inr ?_)
      rw [List.map_map]
      refine List.mem_map.mpr ⟨id, ?_, rfl⟩
      exact List.mem_filter.mpr ⟨hid, by simpa using hc⟩

/-- Witness for C6 (amended) at a concrete input: injecting path
`[A, B]` / edge `A->B` into a one-node graph `[B]` adds a ghost `A` and the
ghost edge, covers both path references, and keeps the existing node first. -/
theorem C6_ghost_additivity_witness :
    ("A" ∈ (ghostInject [{ id := "B" }] [] ["A", "B"] ["A->B"]).1.map GNode.id) ∧
    ("A->B" ∈ (ghostInject [{ id := "B" }] [] ["A", "B"] ["A->B"]).2.map GEdge.id) :=
  ⟨(C6_ghost_additivity [{ id := "B" }] [] ["A", "B"] ["A->B"]).2.2.1 "A"
      (by decide),
   (C6_ghost_additivity [{ id := "B" }] [] ["A", "B"] ["A->B"]).2.2.2 "A->B"
      (by decide)⟩

/-! ## Helper lemmas: the ingestor's edge map -/

theorem edges_foldl_ingestStep (gd : List EdgeRecord) (sa ea : List String)
    (maps : List (String × GNode) × List (String × GEdge)) (id : String) :
    alistGet? (gd.foldl (ingestStep sa ea) maps).2 id =
      match alistGet? maps.2 id with
      | some e => some e
      | none => (gd.find? (fun r => recordEdgeId r = id)).map recordEdge := by
  induction gd generalizing maps with
  | nil => cases h : alistGet? maps.2 id <;> simp [h]
  | cons r t ih =>
    rw [List.foldl_cons, ih]
    have hedge : (ingestStep sa ea maps r).2 =
        if (alistGet? maps.2 (recordEdgeId r)).isSome then maps.2
        else alistSet maps.2 (recordEdgeId r) (recordEdge r) := rfl
    rw [hedge]
    by_cases hpresent : (alistGet? maps.2 (recordEdgeId r)).isSome
    · rw [if_pos hpresent]
      cases hm : alistGet? maps.2 id with
      | some e => simp [hm]
      | none =>
        have hid : ¬ (recordEdgeId r = id) := by
          intro hc
          rw [hc, hm] at hpresent
          simp at hpresent
        simp [hm, List.find?_cons, hid]
    · rw [if_neg hpresent]
      rw [Option.not_isSome_iff_eq_none] at hpresent
      by_cases hid : recordEdgeId r = id
      · subst hid
        rw [alistGet?_alistSet_self, hpresent]
        simp [List.find?_cons]
      · rw [alistGet?_alistSet_ne _ _ (fun hc => hid hc.symm)]
        cases hm : alistGet? maps.2 id with
        | some e => simp [hm]
        | none => simp [hm, List.find?_cons, hid]

theorem alistGet?_foldl_alistSet_ne {α β : Type} (l : List β) (kf : β → String)
    (vf : β → α) (m : List (String × α)) (id : String)
    (h : ∀ b ∈ l, kf b ≠ id) :
    alistGet? (l.foldl (fun acc b => alistSet acc (kf b) (vf b)) m) id =
      alistGet? m id := by
  induction l generalizing m with
  | nil => rfl
  | cons b t ih =>
    rw [List.foldl_cons,
      ih _ (fun b2 hb2 => h b2 (List.mem_cons_of_mem _ hb2))]
    exact alistGet?_alistSet_ne _ _ (Ne.symm (h b (List.mem_cons_self _ _)))

theorem ingest_edges_id_inv (gd : List EdgeRecord) (sa ea : List String)
    (maps : List (String × GNode) × List (String × GEdge))
    (hm : ∀ kv ∈ maps.2, GEdge.id kv.2 = kv.1) :
    ∀ kv ∈ (gd.foldl (ingestStep sa ea) maps).2, GEdge.id kv.2 = kv.1 := by
  induction gd generalizing maps with
  | nil => exact hm
  | cons r t ih =>
    rw [List.foldl_cons]
    apply ih
    intro kv hkv
    have hedge : (ingestStep sa ea maps r).2 =
        if (alistGet? maps.2 (recordEdgeId r)).isSome then maps.2
        else alistSet maps.2 (recordEdgeId r) (recordEdge r) := rfl
    rw [hedge] at hkv
    by_cases hp : (alistGet? maps.2 (recordEdgeId r)).isSome
    · rw [if_pos hp] at hkv
      exact hm kv hkv
    · rw [if_neg hp] at hkv
      rcases mem_alistSet hkv with h | h
      · exact hm kv h
      · subst h
        rfl

theorem foldl_alistSet_id_inv {β : Type} (l : List β) (kf : β → String)
    (vf : β → GEdge) (m : List (String × GEdge))
    (hv : ∀ b, (vf b).id = kf b) (hm : ∀ kv ∈ m, GEdge.id kv.2 = kv.1) :
    ∀ kv ∈ l.foldl (fun acc b => alistSet acc (kf b) (vf b)) m,
      GEdge.id kv.2 = kv.1 := by
  induction l generalizing m with
  | nil => exact hm
  | cons b t ih =>
    rw [List.foldl_cons]
    apply ih
    intro kv hkv
    rcases mem_alistSet hkv with h | h
    · exact hm kv h
    · subst h
      exact hv b

/-! ## Claim C2 — duplicate edge ids in the ingestor -/

/-- Claim C2 counterexample: ingesting two records that share the edge id
`A->B` (case counts `1` then `2`) produces an edge carrying the FIRST
record's statistics — `processInitialData` skips a record whose edge id is
already present (`if (!edgesMap.has(edgeId))`), so the most recent record
does NOT win. -/
theorem C2_counterexample :
    ((processInitialData
        [{ sourceActivity := "A", targetActivity := "B",
           meanDurationSeconds := 5, tooltipTotalTime := "t1",
           tooltipMeanTime := "m1", weightValue := 10, edgeLabel := "L1",
           caseCount := 1 },
         { sourceActivity := "A", targetActivity := "B",
           meanDurationSeconds := 7, tooltipTotalTime := "t2",
           tooltipMeanTime := "m2", weightValue := 20, edgeLabel := "L2",
           caseCount := 2 }] [] []).2.find?
          (fun e => e.id = "A->B")).map GEdge.caseCount = some 1 ∧
    ¬ (((processInitialData
        [{ sourceActivity := "A", targetActivity := "B",
           meanDurationSeconds := 5, tooltipTotalTime := "t1",
           tooltipMeanTime := "m1", weightValue := 10, edgeLabel := "L1",
           caseCount := 1 },
         { sourceActivity := "A", targetActivity := "B",
           meanDurationSeconds := 7, tooltipTotalTime := "t2",
           tooltipMeanTime := "m2", weightValue := 20, edgeLabel := "L2",
           caseCount := 2 }] [] []).2.find?
          (fun e => e.id = "A->B")).map GEdge.caseCount = some 2) := by
  refine ⟨rfl, fun h => ?_⟩
  have h2 : (1 : ℚ) = 2 := Option.some.inj h
  norm_num at h2

/-- Claim C2 (amended): when several records share the same `source->target`
edge id, the edge in the output graph carries the statistics of the FIRST
such record (first write wins; later duplicates are skipped).  The hypotheses
exclude the unrelated degenerate case of an activity name making an anchor
edge id (`start-to-…` / `…-to-end`) collide with the queried record id. -/
theorem C2_first_write_wins (graphData : List EdgeRecord)
    (startActivities endActivities : List String) (id : String)
    (hstart : ∀ t ∈ startActivities, "start-to-" ++ t ≠ id)
    (hend : ∀ s0 ∈ endActivities, s0 ++ "-to-end" ≠ id) :
    ((processInitialData graphData startActivities endActivities).2.find?
        (fun e => e.id = id)) =
      (graphData.find? (fun r => recordEdgeId r = id)).map recordEdge := by
  have hP : (processInitialData graphData startActivities endActivities).2 =
      (((endActivities.filter
          (fun s0 => (validNodeIds graphData).contains s0)).foldl
        (fun m s0 => alistSet m (s0 ++ "-to-end") (endAnchorEdge s0))
        (((startActivities.filter
            (fun t => (validNodeIds graphData).contains t)).foldl
          (fun m t => alistSet m ("start-to-" ++ t) (startAnchorEdge t))
          (graphData.foldl (ingestStep startActivities endActivities)
            ([], [])).2))).map Prod.snd) := rfl
  rw [hP]
  have hinv0 : ∀ kv ∈ (graphData.foldl
      (ingestStep startActivities endActivities) ([], [])).2,
      GEdge.id kv.2 = kv.1 :=
    ingest_edges_id_inv graphData _ _ ([], []) (by intro kv h; simp at h)
  have hinv1 := foldl_alistSet_id_inv
    (startActivities.filter (fun t => (validNodeIds graphData).contains t))
    (fun t => "start-to-" ++ t) startAnchorEdge _ (fun _ => rfl) hinv0
  have hinv2 := foldl_alistSet_id_inv
    (endActivities.filter (fun s0 => (validNodeIds graphData).contains s0))
    (fun s0 => s0 ++ "-to-end") endAnchorEdge _ (fun _ => rfl) hinv1
  rw [find?_values_eq_alistGet GEdge.id _ id hinv2]
  rw [alistGet?_foldl_alistSet_ne _ (fun s0 => s0 ++ "-to-end") endAnchorEdge _
    id (fun b hb => hend b (List.mem_filter.mp hb).1)]
  rw [alistGet?_foldl_alistSet_ne _ (fun t => "start-to-" ++ t) startAnchorEdge
    _ id (fun b hb => hstart b (List.mem_filter.mp hb).1)]
  rw [edges_foldl_ingestStep]
  rfl

/-- Witness for C2 (amended) at a concrete input: with two duplicated `A->B`
records and no anchor activities, the looked-up edge is the first record's. -/
theorem C2_first_write_wins_witness :
    ((processInitialData
        [{ sourceActivity := "A", targetActivity := "B",
           meanDurationSeconds := 5, tooltipTotalTime := "t1",
           tooltipMeanTime := "m1", weightValue := 10, edgeLabel := "L1",
           caseCount := 1 },
         { sourceActivity := "A", targetActivity := "B",
           meanDurationSeconds := 7, tooltipTotalTime := "t2",
           tooltipMeanTime := "m2", weightValue := 20, edgeLabel := "L2",
           caseCount := 2 }] ["S"] ["E"]).2.find?
          (fun e => e.id = "A->B")) =
      some (recordEdge
        { sourceActivity := "A", targetActivity := "B",
          meanDurationSeconds := 5, tooltipTotalTime := "t1",
          tooltipMeanTime := "m1", weightValue := 10, edgeLabel := "L1",
          caseCount := 1 }) := by
  rw [C2_first_write_wins _ ["S"] ["E"] "A->B" (by decide) (by decide)]
  rfl

/-! ## Helper lemmas: the extractor's output -/

theorem timingStep_snd_fst (v : Variant)
    (acc : ℚ × List (String × ℚ) × List (String × ℚ)) (i : ℕ) :
    (timingStep v acc i).2.1 =
      alistSet acc.2.1 (v.path.getD i "" ++ "->" ++ v.path.getD (i + 1) "")
        (max 0 (v.avgTimings.getD (i + 1) 0 - v.avgTimings.getD i 0)) := rfl

theorem timingStep_snd_snd (v : Variant)
    (acc : ℚ × List (String × ℚ) × List (String × ℚ)) (i : ℕ) :
    (timingStep v acc i).2.2 =
      alistSet acc.2.2 (v.path.getD i "" ++ "->" ++ v.path.getD (i + 1) "")
        (max 0 (v.totalTimings.getD (i + 1) 0 - v.totalTimings.getD i 0)) := rfl

theorem timingStep_fold_nodup (v : Variant) (steps : List ℕ)
    (acc : ℚ × List (String × ℚ) × List (String × ℚ))
    (h1 : (alistKeys acc.2.1).Nodup) (h2 : (alistKeys acc.2.2).Nodup) :
    (alistKeys (steps.foldl (timingStep v) acc).2.1).Nodup ∧
    (alistKeys (steps.foldl (timingStep v) acc).2.2).Nodup := by
  induction steps generalizing acc with
  | nil => exact ⟨h1, h2⟩
  | cons i t ih =>
    rw [List.foldl_cons]
    refine ih (timingStep v acc i) ?_ ?_
    · rw [timingStep_snd_fst]
      exact alistKeys_nodup_alistSet _ _ h1
    · rw [timingStep_snd_snd]
      exact alistKeys_nodup_alistSet _ _ h2

theorem timingStep_fold_nonneg (v : Variant) (steps : List ℕ)
    (acc : ℚ × List (String × ℚ) × List (String × ℚ))
    (h1 : ∀ kv ∈ acc.2.1, 0 ≤ kv.2) (h2 : ∀ kv ∈ acc.2.2, 0 ≤ kv.2) :
    (∀ kv ∈ (steps.foldl (timingStep v) acc).2.1, 0 ≤ kv.2) ∧
    (∀ kv ∈ (steps.foldl (timingStep v) acc).2.2, 0 ≤ kv.2) := by
  induction steps generalizing acc with
  | nil => exact ⟨h1, h2⟩
  | cons i t ih =>
    rw [List.foldl_cons]
    refine ih (timingStep v acc i) ?_ ?_
    · rw [timingStep_snd_fst]
      intro kv hkv
      rcases mem_alistSet hkv with h | h
      · exact h1 kv h
      · subst h
        exact le_max_left 0 _
    · rw [timingStep_snd_snd]
      intro kv hkv
      rcases mem_alistSet hkv with h | h
      · exact h2 kv h
      · subst h
        exact le_max_left 0 _

theorem extractPath_frequency {s e : String} {v : Variant} {p : ExtendedPath}
    (h : extractPath s e v = some p) : p.frequency = some v.frequency := by
  rw [extractPath] at h
  simp only at h
  repeat' split at h
  all_goals first
    | exact Option.noConfusion h
    | (obtain rfl := Option.some.inj h; rfl)

set_option maxHeartbeats 1000000 in
theorem extractPath_recNodup {s e : String} {v : Variant} {p : ExtendedPath}
    (h : extractPath s e v = some p) :
    recNodup p._specificEdgeDurations ∧ recNodup p._specificTotalDurations := by
  rw [extractPath] at h
  simp only at h
  repeat' split at h
  all_goals try exact Option.noConfusion h
  all_goals obtain rfl := Option.some.inj h
  all_goals refine ⟨?_, ?_⟩
  all_goals
    first
      | exact (timingStep_fold_nodup v _ (0, ([], []))
          (by simp [alistKeys]) (by simp [alistKeys])).1
      | exact (timingStep_fold_nodup v _ (0, ([], []))
          (by simp [alistKeys]) (by simp [alistKeys])).2
      | simp [recNodup, alistKeys]

set_option maxHeartbeats 1000000 in
theorem extractPath_records_nonneg {s e : String} {v : Variant}
    {p : ExtendedPath} (h : extractPath s e v = some p) :
    (∀ kv ∈ p._specificEdgeDurations.getD [], 0 ≤ kv.2) ∧
    (∀ kv ∈ p._specificTotalDurations.getD [], 0 ≤ kv.2) := by
  rw [extractPath] at h
  simp only at h
  repeat' split at h
  all_goals try exact Option.noConfusion h
  all_goals obtain rfl := Option.some.inj h
  all_goals refine ⟨?_, ?_⟩
  all_goals
    first
      | exact (timingStep_fold_nonneg v _ (0, ([], []))
          (by simp) (by simp)).1
      | exact (timingStep_fold_nonneg v _ (0, ([], []))
          (by simp) (by simp)).2
      | simp

/-! ## Helper lemmas: aggregate totals -/

theorem outFreqSum_aggregatePaths (ps : List ExtendedPath) :
    outFreqSum (aggregatePaths ps) = (ps.map effFrequency).sum := by
  rw [aggregatePaths, outFreqSum]
  have hperm := List.mergeSort_perm
    ((ps.foldl aggStep []).map (fun kv => finalizeGroup kv.2))
    (fun a b => decide (b.frequency.getD 0 ≤ a.frequency.getD 0))
  rw [(hperm.map (fun p => p.frequency.getD 0)).sum_eq]
  have hmm : ((ps.foldl aggStep []).map (fun kv => finalizeGroup kv.2)).map
      (fun p => p.frequency.getD 0) =
      (ps.foldl aggStep []).map (fun kv => kv.2.totalFrequency) := by
    rw [List.map_map]
    rfl
  rw [hmm]
  have := freqSum_foldl_aggStep ps []
  simpa using this

theorem effFrequency_pos (p : ExtendedPath) : 1 ≤ effFrequency p := by
  rw [effFrequency]
  cases p.frequency with
  | none => exact le_refl 1
  | some n =>
    by_cases h : n = 0
    · simp [h]
    · simp [h]
      omega

theorem length_le_sum_eff (ps : List ExtendedPath) :
    ps.length ≤ (ps.map effFrequency).sum := by
  induction ps with
  | nil => simp
  | cons p t ih =>
    simp only [List.length_cons, List.map_cons, List.sum_cons]
    have := effFrequency_pos p
    omega

theorem effFreq_filterMap (startId endId : String) (vs : List Variant) :
    ((vs.filterMap (extractPath startId endId)).map effFrequency).sum =
      ((vs.filter (fun v => (extractPath startId endId v).isSome)).map
        (fun v => if v.frequency = 0 then 1 else v.frequency)).sum := by
  induction vs with
  | nil => rfl
  | cons v t ih =>
    cases h : extractPath startId endId v with
    | none => simp [List.filterMap_cons, List.filter_cons, h, ih]
    | some p =>
      have hfreq : effFrequency p = if v.frequency = 0 then 1 else v.frequency := by
        rw [effFrequency, extractPath_frequency h]
      simp [List.filterMap_cons, List.filter_cons, h, ih, hfreq]

theorem mem_aggregatePaths {ps : List ExtendedPath} {q : ExtendedPath}
    (hq : q ∈ aggregatePaths ps) :
    ∃ acc, alistGet? (ps.foldl aggStep []) (pathKey q) = some acc ∧
      q = finalizeGroup acc := by
  rw [aggregatePaths] at hq
  have hq2 := (List.mergeSort_perm
    ((ps.foldl aggStep []).map (fun kv => finalizeGroup kv.2))
    (fun a b => decide (b.frequency.getD 0 ≤ a.frequency.getD 0))).mem_iff.mp hq
  rcases List.mem_map.mp hq2 with ⟨kv, hkv, rfl⟩
  have hkey := aggStep_key_inv ps [] (by simp) kv hkv
  have hnd := aggStep_keys_nodup ps [] (by simp [alistKeys])
  have hget : alistGet? (ps.foldl aggStep []) kv.1 = some kv.2 :=
    alistGet?_of_mem_nodup hnd (by rw [Prod.mk.eta]; exact hkv)
  refine ⟨kv.2, ?_, rfl⟩
  have hk2 : pathKey (finalizeGroup kv.2) = kv.1 := by
    rw [pathKey, finalizeGroup_nodes]
    rw [pathKey] at hkey
    exact hkey
  rw [hk2]
  exact hget

/-! ## Claim C4 — frequency conservation -/

/-- Claim C4 counterexample: a single qualifying variant with recorded
frequency `0` — the aggregator's output frequency total is `1` (the `|| 1`
fallback), while the recorded frequencies of the qualifying variants sum to
`0`, so the conservation equation of the claim fails as stated. -/
theorem C4_counterexample :
    outFreqSum (findPathsBetweenNodes "A" "C"
      [{ path := ["A", "C"], frequency := 0, avgTimings := [0, 10],
            totalTimings := [0, 10] }]) = 1 ∧
    ((([{ path := ["A", "C"], frequency := 0, avgTimings := [0, 10],
            totalTimings := [0, 10] }] : List Variant).filter
        (fun v => (extractPath "A" "C" v).isSome)).map Variant.frequency).sum
      = 0 ∧
    (1 : ℕ) ≠ 0 := by
  refine ⟨?_, by rfl, by decide⟩
  rw [findPathsBetweenNodes]
  rw [if_neg (by simp)]
  rw [outFreqSum_aggregatePaths]
  obtain ⟨p0, hp0⟩ : ∃ p, extractPath "A" "C"
      { path := ["A", "C"], frequency := 0, avgTimings := [0, 10],
        totalTimings := [0, 10] } = some p :=
    Option.isSome_iff_exists.mp (by rfl)
  rw [show ([{ path := ["A", "C"], frequency := 0, avgTimings := [0, 10],
                totalTimings := [0, 10] }] : List Variant).filterMap
      (extractPath "A" "C") = [p0] by simp [List.filterMap_cons, hp0]]
  have : effFrequency p0 = 1 := by
    rw [effFrequency, extractPath_frequency hp0]
    decide
  simp [this]

/-- Claim C4 (amended): the sum of frequencies over the aggregator's output
equals the sum of the EFFECTIVE frequencies of the qualifying variants, where
a recorded frequency of `0` counts as `1` (the `path.frequency || 1`
fallback).  For variants with non-zero frequencies this is exactly the
claimed conservation law; no qualifying trace is dropped or double-counted. -/
theorem C4_frequency_conservation (startId endId : String)
    (variantList : List Variant) :
    outFreqSum (findPathsBetweenNodes startId endId variantList) =
      ((variantList.filter (fun v => (extractPath startId endId v).isSome)).map
        (fun v => if v.frequency = 0 then 1 else v.frequency)).sum := by
  rw [findPathsBetweenNodes]
  by_cases hv : variantList.isEmpty
  · rw [if_pos hv]
    rw [List.isEmpty_iff.mp hv]
    rfl
  · rw [if_neg hv, outFreqSum_aggregatePaths]
    exact effFreq_filterMap startId endId variantList

/-! ## Claim C10 — zero frequencies count as one -/

/-- Claim C10: every output path's frequency is the sum of the effective
frequencies (`frequency || 1`, so `0` counts as `1`) of the qualifying
extracted paths that share its node-sequence key; consequently it is at least
the number of those qualifying paths, even when their recorded frequencies
sum to less. -/
theorem C10_zero_frequency_counts_as_one (startId endId : String)
    (variantList : List Variant) (q : ExtendedPath)
    (hq : q ∈ findPathsBetweenNodes startId endId variantList) :
    q.frequency =
      some ((((variantList.filterMap (extractPath startId endId)).filter
        (fun p => pathKey p = pathKey q)).map effFrequency).sum) ∧
    ((variantList.filterMap (extractPath startId endId)).filter
        (fun p => pathKey p = pathKey q)).length ≤ q.frequency.getD 0 := by
  rw [findPathsBetweenNodes] at hq
  by_cases hv : variantList.isEmpty
  · rw [if_pos hv] at hq
    simp at hq
  · rw [if_neg hv] at hq
    rcases mem_aggregatePaths hq with ⟨acc, hget, rfl⟩
    have hfold := alistGet?_foldl_aggStep
      (variantList.filterMap (extractPath startId endId)) []
      (pathKey (finalizeGroup acc))
    rw [hget] at hfold
    rw [show alistGet? ([] : List (String × GroupAcc))
      (pathKey (finalizeGroup acc)) = none from rfl] at hfold
    cases hgr : groupOf (pathKey (finalizeGroup acc))
        (variantList.filterMap (extractPath startId endId)) with
    | nil =>
      rw [hgr] at hfold
      simp at hfold
    | cons p0 gr =>
      rw [hgr] at hfold
      have hacc : acc = gr.foldl updateAcc (initAcc p0) :=
        Option.some.inj hfold
      have htf : acc.totalFrequency = ((p0 :: gr).map effFrequency).sum := by
        rw [hacc, foldl_updateAcc_totalFrequency, initAcc_totalFrequency]
        simp
      have hgroup : (variantList.filterMap (extractPath startId endId)).filter
          (fun p => pathKey p = pathKey (finalizeGroup acc)) = p0 :: gr := by
        rw [← hgr]
        rfl
      rw [hgroup]
      constructor
      · rw [finalizeGroup_frequency, htf]
      · rw [finalizeGroup_frequency]
        simp only [Option.getD_some]
        rw [htf]
        exact length_le_sum_eff (p0 :: gr)

/-- Witness for C10 at a concrete input: one qualifying variant with recorded
frequency `0`; the (unique) merged output path reports a frequency at least
the size of its group. -/
theorem C10_zero_frequency_witness :
    (List.getD (findPathsBetweenNodes "A" "C"
        [{ path := ["A", "C"], frequency := 0, avgTimings := [0, 10],
            totalTimings := [0, 10] }]) 0 { nodes := [], edges := [] }
      ∈ findPathsBetweenNodes "A" "C"
        [{ path := ["A", "C"], frequency := 0, avgTimings := [0, 10],
            totalTimings := [0, 10] }]) ∧
    ((([{ path := ["A", "C"], frequency := 0, avgTimings := [0, 10],
            totalTimings := [0, 10] }] : List Variant).filterMap
        (extractPath "A" "C")).filter
      (fun p => pathKey p = pathKey (List.getD (findPathsBetweenNodes "A" "C"
        [{ path := ["A", "C"], frequency := 0, avgTimings := [0, 10],
            totalTimings := [0, 10] }]) 0 { nodes := [], edges := [] }))).length
      ≤ (List.getD (findPathsBetweenNodes "A" "C"
        [{ path := ["A", "C"], frequency := 0, avgTimings := [0, 10],
            totalTimings := [0, 10] }]) 0 { nodes := [], edges := [] }).frequency.getD 0 := by
  have hlen : 0 < (findPathsBetweenNodes "A" "C"
      [{ path := ["A", "C"], frequency := 0, avgTimings := [0, 10],
          totalTimings := [0, 10] }]).length := by
    rw [findPathsBetweenNodes, if_neg (by simp), aggregatePaths]
    rw [List.length_mergeSort]
    obtain ⟨p0, hp0⟩ : ∃ p, extractPath "A" "C"
        { path := ["A", "C"], frequency := 0, avgTimings := [0, 10],
          totalTimings := [0, 10] } = some p :=
      Option.isSome_iff_exists.mp (by rfl)
    simp [hp0, aggStep, alistGet?, alistSet]
  have hmem : List.getD (findPathsBetweenNodes "A" "C"
      [{ path := ["A", "C"], frequency := 0, avgTimings := [0, 10],
          totalTimings := [0, 10] }]) 0 { nodes := [], edges := [] }
      ∈ findPathsBetweenNodes "A" "C"
        [{ path := ["A", "C"], frequency := 0, avgTimings := [0, 10],
            totalTimings := [0, 10] }] := by
    rw [List.getD_eq_getElem _ _ hlen]
    exact List.getElem_mem hlen
  exact ⟨hmem, (C10_zero_frequency_counts_as_one "A" "C" _ _ hmem).2⟩

/-! ## Claim C1 — the weighted merge of a group -/

/-- Claim C1 counterexample: a group consisting of one extracted path whose
recorded frequency is `0` — the merged path's frequency is `1` (the `|| 1`
fallback), not the sum `0` of the group's frequencies, so the claim fails as
stated for zero frequencies. -/
theorem C1_counterexample :
    outFreqSum (aggregatePaths
      (([{ path := ["X", "Y"], frequency := 0, avgTimings := [0, 20],
            totalTimings := [0, 20] }] : List Variant).filterMap
        (extractPath "X" "Y"))) = 1 ∧
    ((([{ path := ["X", "Y"], frequency := 0, avgTimings := [0, 20],
            totalTimings := [0, 20] }] : List Variant).filterMap
        (extractPath "X" "Y")).map (fun p => p.frequency.getD 0)).sum = 0 ∧
    (1 : ℕ) ≠ 0 := by
  obtain ⟨p0, hp0⟩ : ∃ p, extractPath "X" "Y"
      { path := ["X", "Y"], frequency := 0, avgTimings := [0, 20],
        totalTimings := [0, 20] } = some p :=
    Option.isSome_iff_exists.mp (by rfl)
  have hfm : ([{ path := ["X", "Y"], frequency := 0, avgTimings := [0, 20],
                  totalTimings := [0, 20] }] : List Variant).filterMap
      (extractPath "X" "Y") = [p0] := by
    simp [List.filterMap_cons, hp0]
  have heff : effFrequency p0 = 1 := by
    rw [effFrequency, extractPath_frequency hp0]
    decide
  have hfr : p0.frequency.getD 0 = 0 := by
    rw [extractPath_frequency hp0]
    rfl
  rw [hfm, outFreqSum_aggregatePaths]
  refine ⟨by simp [heff], by simp [hfr], by decide⟩

/-- Claim C1 (amended): for every group of extracted paths sharing the same
joined node sequence `K`, the aggregator outputs exactly one merged path for
that group; its frequency is the sum of the group's EFFECTIVE frequencies
(`frequency || 1`: a recorded `0` counts as `1`); each per-edge average
duration is the effective-frequency-weighted mean
`Σ(perEdgeDuration_i × freq_i) / Σ(freq_i)` (a member lacking the edge in its
record contributes `0`); and each per-edge total duration is the plain sum of
the group's per-edge total durations.  With all frequencies non-zero this is
exactly the original claim; in particular frequencies `1` and `3` with edge
durations `10` and `30` merge to average `25` and total `40` (see the
witness). -/
theorem C1_weighted_merge (ps : List ExtendedPath) (K : String)
    (hnd : ∀ p ∈ ps, recNodup p._specificEdgeDurations ∧
      recNodup p._specificTotalDurations)
    (hne : groupOf K ps ≠ []) :
    ∃ q, q ∈ aggregatePaths ps ∧ pathKey q = K ∧
      (∀ r ∈ aggregatePaths ps, pathKey r = K → r = q) ∧
      q.frequency = some (((groupOf K ps).map effFrequency).sum) ∧
      (∀ e, (groupOf K ps).any (fun p => pathHasEdge p e) →
        alistGet? (q._specificEdgeDurations.getD []) e =
          some ((((groupOf K ps).map
            (fun p => pathEdgeDur p e * (effFrequency p : ℚ))).sum) /
            ((((groupOf K ps).map effFrequency).sum : ℕ) : ℚ))) ∧
      (∀ e, (groupOf K ps).any (fun p => pathHasTot p e) →
        alistGet? (q._specificTotalDurations.getD []) e =
          some (((groupOf K ps).map (fun p => pathEdgeTot p e)).sum)) := by
  cases hgr : groupOf K ps with
  | nil => exact absurd hgr hne
  | cons p0 gr =>
  have hfold := alistGet?_foldl_aggStep ps [] K
  rw [show alistGet? ([] : List (String × GroupAcc)) K = none from rfl,
    hgr] at hfold
  have hfold2 : alistGet? (ps.foldl aggStep []) K =
      some (gr.foldl updateAcc (initAcc p0)) := hfold
  set acc := gr.foldl updateAcc (initAcc p0) with hacc
  have hsubgrp : ∀ p ∈ p0 :: gr, p ∈ ps := by
    intro p hp
    rw [← hgr] at hp
    exact List.mem_of_mem_filter hp
  have hndgrp := fun p hp => hnd p (hsubgrp p hp)
  have hndgr : ∀ p ∈ gr, recNodup p._specificEdgeDurations :=
    fun p hp => (hndgrp p (List.mem_cons_of_mem _ hp)).1
  have hndgrT : ∀ p ∈ gr, recNodup p._specificTotalDurations :=
    fun p hp => (hndgrp p (List.mem_cons_of_mem _ hp)).2
  have hndp0 := hndgrp p0 (List.mem_cons_self _ _)
  have hkp0 : pathKey p0 = K := by
    have h1 : p0 ∈ groupOf K ps := by
      rw [hgr]
      exact List.mem_cons_self _ _
    exact of_decide_eq_true (List.mem_filter.mp h1).2
  have htf : acc.totalFrequency = ((p0 :: gr).map effFrequency).sum := by
    rw [hacc, foldl_updateAcc_totalFrequency, initAcc_totalFrequency]
    simp
  refine ⟨finalizeGroup acc, ?_, ?_, ?_, ?_, ?_, ?_⟩
  · rw [aggregatePaths]
    refine (List.mergeSort_perm _ _).mem_iff.mpr ?_
    exact List.mem_map_of_mem _ (alistGet?_mem hfold2)
  · rw [pathKey, finalizeGroup_nodes, hacc, foldl_updateAcc_path]
    rw [show (initAcc p0).path = p0 from rfl]
    rw [pathKey] at hkp0
    exact hkp0
  · intro r hr hkr
    rcases mem_aggregatePaths hr with ⟨acc2, hget2, rfl⟩
    rw [hkr, hfold2] at hget2
    obtain rfl := Option.some.inj hget2
    rfl
  · rw [finalizeGroup_frequency, htf]
  · intro e hany
    have hwnd : (alistKeys acc.weightedEdgeDurations).Nodup := by
      rw [hacc]
      exact foldl_updateAcc_weighted_nodup _ _ (initAcc_weighted_nodup p0)
    rw [finalizeGroup_sed_lookup acc hwnd e]
    have hmatch := foldl_updateAcc_weighted_match (initAcc p0) gr hndgr e
    rw [initAcc_weighted_lookup p0 hndp0.1 e] at hmatch
    rw [← hacc] at hmatch
    rw [htf]
    by_cases hp0e : pathHasEdge p0 e
    · rw [if_pos hp0e] at hmatch
      rw [hmatch]
      simp [List.map_cons, List.sum_cons]
    · rw [if_neg hp0e] at hmatch
      have hany2 : gr.any (fun p => pathHasEdge p e) = true := by
        rw [List.any_cons] at hany
        rcases Bool.or_eq_true_iff.mp hany with h | h
        · exact absurd h hp0e
        · exact h
      rw [if_pos hany2] at hmatch
      rw [hmatch]
      have hd0 := pathEdgeDur_eq_zero_of_not_hasEdge hp0e
      simp [List.map_cons, List.sum_cons, hd0]
  · intro e hany
    rw [hacc, finalizeGroup_std]
    simp only [Option.getD_some]
    have hmatch := foldl_updateAcc_summed_match (initAcc p0) gr hndgrT e
    rw [initAcc_summed_lookup p0 hndp0.2 e] at hmatch
    by_cases hp0e : pathHasTot p0 e
    · rw [if_pos hp0e] at hmatch
      rw [hmatch]
      simp [List.map_cons, List.sum_cons]
    · rw [if_neg hp0e] at hmatch
      have hany2 : gr.any (fun p => pathHasTot p e) = true := by
        rw [List.any_cons] at hany
        rcases Bool.or_eq_true_iff.mp hany with h | h
        · exact absurd h hp0e
        · exact h
      rw [if_pos hany2] at hmatch
      rw [hmatch]
      have hd0 := pathEdgeTot_eq_zero_of_not_hasTot hp0e
      simp [List.map_cons, List.sum_cons, hd0]

/-- Witness for C1 (amended) at the spec's synthetic pair: two variants with
frequencies `1` and `3` and edge durations `10` and `30` on the same node
path `A -> B` merge to one path with frequency `4`, edge average duration
`(10·1 + 30·3)/4 = 25` and edge total duration `10 + 30 = 40`. -/
theorem C1_weighted_merge_witness :
    ∃ q, q ∈ aggregatePaths
        (([{ path := ["A", "B"], frequency := 1, avgTimings := [0, 10],
              totalTimings := [0, 10] },
           { path := ["A", "B"], frequency := 3, avgTimings := [0, 30],
              totalTimings := [0, 30] }] : List Variant).filterMap
          (extractPath "A" "B")) ∧
      q.frequency = some 4 ∧
      alistGet? (q._specificEdgeDurations.getD []) "A->B" = some 25 ∧
      alistGet? (q._specificTotalDurations.getD []) "A->B" = some 40 := by
  have hp1 : extractPath "A" "B"
      { path := ["A", "B"], frequency := 1, avgTimings := [0, 10],
        totalTimings := [0, 10] } =
      some { nodes := ["A", "B"], edges := [], frequency := some 1,
             totalDuration := some 10, averageDuration := some 10,
             _pathType := some PathType.absolute, _frequency := some 1,
             _fullPathNodes := some ["A", "B"], _startIndex := some 0,
             _endIndex := some 1, _variantDuration := some 10,
             _variantTimings := some [0, 10],
             _specificEdgeDurations := some [("A->B", 10)],
             _specificTotalDurations := some [("A->B", 10)] } := by
    rw [extractPath]
    norm_num [jsIndexOf, jsLastIndexOf, timingStep, alistSet, List.range']
    rfl
  have hp2 : extractPath "A" "B"
      { path := ["A", "B"], frequency := 3, avgTimings := [0, 30],
        totalTimings := [0, 30] } =
      some { nodes := ["A", "B"], edges := [], frequency := some 3,
             totalDuration := some 30, averageDuration := some 30,
             _pathType := some PathType.absolute, _frequency := some 3,
             _fullPathNodes := some ["A", "B"], _startIndex := some 0,
             _endIndex := some 1, _variantDuration := some 30,
             _variantTimings := some [0, 30],
             _specificEdgeDurations := some [("A->B", 30)],
             _specificTotalDurations := some [("A->B", 30)] } := by
    rw [extractPath]
    norm_num [jsIndexOf, jsLastIndexOf, timingStep, alistSet, List.range']
    rfl
  have hps : ([{ path := ["A", "B"], frequency := 1, avgTimings := [0, 10],
                  totalTimings := [0, 10] },
                { path := ["A", "B"], frequency := 3, avgTimings := [0, 30],
                  totalTimings := [0, 30] }] : List Variant).filterMap
      (extractPath "A" "B") =
      [{ nodes := ["A", "B"], edges := [], frequency := some 1,
         totalDuration := some 10, averageDuration := some 10,
         _pathType := some PathType.absolute, _frequency := some 1,
         _fullPathNodes := some ["A", "B"], _startIndex := some 0,
         _endIndex := some 1, _variantDuration := some 10,
         _variantTimings := some [0, 10],
         _specificEdgeDurations := some [("A->B", 10)],
         _specificTotalDurations := some [("A->B", 10)] },
       { nodes := ["A", "B"], edges := [], frequency := some 3,
         totalDuration := some 30, averageDuration := some 30,
         _pathType := some PathType.absolute, _frequency := some 3,
         _fullPathNodes := some ["A", "B"], _startIndex := some 0,
         _endIndex := some 1, _variantDuration := some 30,
         _variantTimings := some [0, 30],
         _specificEdgeDurations := some [("A->B", 30)],
         _specificTotalDurations := some [("A->B", 30)] }] := by
    rw [List.filterMap_cons, hp1, List.filterMap_cons, hp2]
    rfl
  rw [hps]
  have hg : groupOf "A->B"
      [{ nodes := ["A", "B"], edges := [], frequency := some 1,
         totalDuration := some 10, averageDuration := some 10,
         _pathType := some PathType.absolute, _frequency := some 1,
         _fullPathNodes := some ["A", "B"], _startIndex := some 0,
         _endIndex := some 1, _variantDuration := some 10,
         _variantTimings := some [0, 10],
         _specificEdgeDurations := some [("A->B", 10)],
         _specificTotalDurations := some [("A->B", 10)] },
       { nodes := ["A", "B"], edges := [], frequency := some 3,
         totalDuration := some 30, averageDuration := some 30,
         _pathType := some PathType.absolute, _frequency := some 3,
         _fullPathNodes := some ["A", "B"], _startIndex := some 0,
         _endIndex := some 1, _variantDuration := some 30,
         _variantTimings := some [0, 30],
         _specificEdgeDurations := some [("A->B", 30)],
         _specificTotalDurations := some [("A->B", 30)] }] =
      [{ nodes := ["A", "B"], edges := [], frequency := some 1,
         totalDuration := some 10, averageDuration := some 10,
         _pathType := some PathType.absolute, _frequency := some 1,
         _fullPathNodes := some ["A", "B"], _startIndex := some 0,
         _endIndex := some 1, _variantDuration := some 10,
         _variantTimings := some [0, 10],
         _specificEdgeDurations := some [("A->B", 10)],
         _specificTotalDurations := some [("A->B", 10)] },
       { nodes := ["A", "B"], edges := [], frequency := some 3,
         totalDuration := some 30, averageDuration := some 30,
         _pathType := some PathType.absolute, _frequency := some 3,
         _fullPathNodes := some ["A", "B"], _startIndex := some 0,
         _endIndex := some 1, _variantDuration := some 30,
         _variantTimings := some [0, 30],
         _specificEdgeDurations := some [("A->B", 30)],
         _specificTotalDurations := some [("A->B", 30)] }] := rfl
  have hnd2 : ∀ p ∈
      [({ nodes := ["A", "B"], edges := [], frequency := some 1,
          totalDuration := some 10, averageDuration := some 10,
          _pathType := some PathType.absolute, _frequency := some 1,
          _fullPathNodes := some ["A", "B"], _startIndex := some 0,
          _endIndex := some 1, _variantDuration := some 10,
          _variantTimings := some [0, 10],
          _specificEdgeDurations := some [("A->B", 10)],
          _specificTotalDurations := some [("A->B", 10)] } : ExtendedPath),
       ({ nodes := ["A", "B"], edges := [], frequency := some 3,
          totalDuration := some 30, averageDuration := some 30,
          _pathType := some PathType.absolute, _frequency := some 3,
          _fullPathNodes := some ["A", "B"], _startIndex := some 0,
          _endIndex := some 1, _variantDuration := some 30,
          _variantTimings := some [0, 30],
          _specificEdgeDurations := some [("A->B", 30)],
          _specificTotalDurations := some [("A->B", 30)] } : ExtendedPath)],
      recNodup p._specificEdgeDurations ∧
      recNodup p._specificTotalDurations := by
    intro p hp
    rw [List.mem_cons, List.mem_cons] at hp
    rcases hp with rfl | rfl | hp
    · exact ⟨by simp [recNodup, alistKeys], by simp [recNodup, alistKeys]⟩
    · exact ⟨by simp [recNodup, alistKeys], by simp [recNodup, alistKeys]⟩
    · simp at hp
  have hne2 : groupOf "A->B"
      [({ nodes := ["A", "B"], edges := [], frequency := some 1,
          totalDuration := some 10, averageDuration := some 10,
          _pathType := some PathType.absolute, _frequency := some 1,
          _fullPathNodes := some ["A", "B"], _startIndex := some 0,
          _endIndex := some 1, _variantDuration := some 10,
          _variantTimings := some [0, 10],
          _specificEdgeDurations := some [("A->B", 10)],
          _specificTotalDurations := some [("A->B", 10)] } : ExtendedPath),
       ({ nodes := ["A", "B"], edges := [], frequency := some 3,
          totalDuration := some 30, averageDuration := some 30,
          _pathType := some PathType.absolute, _frequency := some 3,
          _fullPathNodes := some ["A", "B"], _startIndex := some 0,
          _endIndex := some 1, _variantDuration := some 30,
          _variantTimings := some [0, 30],
          _specificEdgeDurations := some [("A->B", 30)],
          _specificTotalDurations := some [("A->B", 30)] } : ExtendedPath)] ≠ [] := by
    rw [hg]
    intro hc
    exact List.noConfusion hc
  obtain ⟨q, hqmem, hqkey, huniq, hfreq, hsed, hstd⟩ :=
    C1_weighted_merge _ "A->B" hnd2 hne2
  refine ⟨q, hqmem, ?_, ?_, ?_⟩
  · rw [hfreq, hg]
    rfl
  · rw [hsed "A->B" (by rw [hg]; rfl), hg]
    norm_num [pathEdgeDur, effFrequency, alistGet?]
  · rw [hstd "A->B" (by rw [hg]; rfl), hg]
    norm_num [pathEdgeTot, alistGet?]

/-! ## Helper lemmas: occurrence indices (`indexOf` / `lastIndexOf`) -/

theorem jsIndexOf_ge_neg_one (x : String) (l : List String) :
    -1 ≤ jsIndexOf x l := by
  induction l with
  | nil => simp [jsIndexOf]
  | cons a t ih =>
    rw [jsIndexOf]
    by_cases h : a = x
    · simp [h]
    · simp only [if_neg h]
      by_cases h2 : jsIndexOf x t = -1
      · simp [h2]
      · simp only [if_neg h2]
        omega

theorem jsIndexOf_eq_neg_one_iff (x : String) (l : List String) :
    jsIndexOf x l = -1 ↔ x ∉ l := by
  induction l with
  | nil => simp [jsIndexOf]
  | cons a t ih =>
    rw [jsIndexOf]
    by_cases h : a = x
    · subst h
      simp
    · simp only [if_neg h]
      by_cases h2 : jsIndexOf x t = -1
      · rw [if_pos h2]
        have hnot : x ∉ t := ih.mp h2
        constructor
        · intro _ hc
          rcases List.mem_cons.mp hc with hxa | hm
          · exact h hxa.symm
          · exact hnot hm
        · intro _
          rfl
      · rw [if_neg h2]
        have hge := jsIndexOf_ge_neg_one x t
        constructor
        · intro hc
          omega
        · intro hc
          exact absurd (ih.mpr (fun hm => hc (List.mem_cons_of_mem a hm))) h2

theorem jsLastIndexOf_ge_neg_one (x : String) (l : List String) :
    -1 ≤ jsLastIndexOf x l := by
  induction l with
  | nil => simp [jsLastIndexOf]
  | cons a t ih =>
    rw [jsLastIndexOf]
    by_cases h2 : jsLastIndexOf x t = -1
    · rw [if_neg (by simpa using h2)]
      by_cases h : a = x
      · simp [h]
      · simp [h]
    · rw [if_pos (by simpa using h2)]
      omega

theorem jsLastIndexOf_eq_neg_one_iff (x : String) (l : List String) :
    jsLastIndexOf x l = -1 ↔ x ∉ l := by
  induction l with
  | nil => simp [jsLastIndexOf]
  | cons a t ih =>
    rw [jsLastIndexOf]
    by_cases h2 : jsLastIndexOf x t = -1
    · rw [if_neg (by simpa using h2)]
      by_cases h : a = x
      · subst h
        simp
      · rw [if_neg h]
        have hnot : x ∉ t := ih.mp h2
        constructor
        · intro _ hc
          rcases List.mem_cons.mp hc with hxa | hm
          · exact h hxa.symm
          · exact hnot hm
        · intro _
          rfl
    · rw [if_pos (by simpa using h2)]
      have hge := jsLastIndexOf_ge_neg_one x t
      constructor
      · intro hc
        omega
      · intro hc
        exact absurd (ih.mpr (fun hm => hc (List.mem_cons_of_mem a hm))) h2

theorem isFirstOccurrence_cons_zero (a x : String) (t : List String) :
    isFirstOccurrence (a :: t) x 0 ↔ a = x := by
  rw [isFirstOccurrence]
  simp

theorem isFirstOccurrence_cons_succ (a x : String) (t : List String) (m : ℕ) :
    isFirstOccurrence (a :: t) x (m + 1) ↔ a ≠ x ∧ isFirstOccurrence t x m := by
  rw [isFirstOccurrence, isFirstOccurrence]
  constructor
  · rintro ⟨h1, h2⟩
    refine ⟨?_, by simpa using h1, ?_⟩
    · intro hax
      exact h2 0 (Nat.succ_pos m) (by simp [hax])
    · intro j hj
      simpa using h2 (j + 1) (by omega)
  · rintro ⟨hax, h1, h2⟩
    refine ⟨by simpa using h1, ?_⟩
    intro j hj
    cases j with
    | zero => simp [hax]
    | succ m2 => simpa using h2 m2 (by omega)

theorem isLastOccurrence_cons_zero (a x : String) (t : List String) :
    isLastOccurrence (a :: t) x 0 ↔ a = x ∧ x ∉ t := by
  rw [isLastOccurrence]
  constructor
  · rintro ⟨h1, h2⟩
    refine ⟨by simpa using h1, ?_⟩
    intro hm
    obtain ⟨k, hk⟩ := List.mem_iff_get?.mp hm
    exact h2 (k + 1) (Nat.succ_pos k) (by simpa using hk)
  · rintro ⟨hax, hnot⟩
    refine ⟨by simp [hax], ?_⟩
    intro j hj
    cases j with
    | zero => omega
    | succ k =>
      intro hc
      exact hnot (List.mem_iff_get?.mpr ⟨k, by simpa using hc⟩)

theorem isLastOccurrence_cons_succ (a x : String) (t : List String) (m : ℕ) :
    isLastOccurrence (a :: t) x (m + 1) ↔ isLastOccurrence t x m := by
  rw [isLastOccurrence, isLastOccurrence]
  constructor
  · rintro ⟨h1, h2⟩
    refine ⟨by simpa using h1, ?_⟩
    intro j hj
    simpa using h2 (j + 1) (by omega)
  · rintro ⟨h1, h2⟩
    refine ⟨by simpa using h1, ?_⟩
    intro j hj
    cases j with
    | zero => omega
    | succ k => simpa using h2 k (by omega)

theorem jsIndexOf_eq_coe_iff (x : String) (l : List String) (i : ℕ) :
    jsIndexOf x l = (i : ℤ) ↔ isFirstOccurrence l x i := by
  induction l generalizing i with
  | nil =>
    rw [jsIndexOf, isFirstOccurrence]
    simp
  | cons a t ih =>
    rw [jsIndexOf]
    by_cases h : a = x
    · subst h
      rw [if_pos rfl]
      constructor
      · intro h0
        have hi : i = 0 := by omega
        subst hi
        exact (isFirstOccurrence_cons_zero a a t).mpr rfl
      · intro hf
        cases i with
        | zero => rfl
        | succ m =>
          exact absurd rfl ((isFirstOccurrence_cons_succ a a t m).mp hf).1
    · simp only [if_neg h]
      by_cases h2 : jsIndexOf x t = -1
      · rw [if_pos h2]
        have hnot : x ∉ t := (jsIndexOf_eq_neg_one_iff x t).mp h2
        constructor
        · intro hc
          omega
        · intro hf
          cases i with
          | zero => exact absurd ((isFirstOccurrence_cons_zero a x t).mp hf) h
          | succ m =>
            have := ((isFirstOccurrence_cons_succ a x t m).mp hf).2.1
            exact absurd (List.mem_iff_get?.mpr ⟨m, this⟩) hnot
      · rw [if_neg h2]
        have hge := jsIndexOf_ge_neg_one x t
        obtain ⟨n, hn⟩ : ∃ n : ℕ, jsIndexOf x t = (n : ℤ) :=
          ⟨(jsIndexOf x t).toNat, by omega⟩
        rw [hn]
        have hfirst : isFirstOccurrence t x n := (ih n).mp hn
        constructor
        · intro hc
          have hi : i = n + 1 := by omega
          subst hi
          exact (isFirstOccurrence_cons_succ a x t n).mpr ⟨h, hfirst⟩
        · intro hf
          cases i with
          | zero => exact absurd ((isFirstOccurrence_cons_zero a x t).mp hf) h
          | succ m =>
            have hm : isFirstOccurrence t x m :=
              ((isFirstOccurrence_cons_succ a x t m).mp hf).2
            have := (ih m).mpr hm
            omega

theorem jsLastIndexOf_eq_coe_iff (x : String) (l : List String) (i : ℕ) :
    jsLastIndexOf x l = (i : ℤ) ↔ isLastOccurrence l x i := by
  induction l generalizing i with
  | nil =>
    rw [jsLastIndexOf, isLastOccurrence]
    simp
  | cons a t ih =>
    rw [jsLastIndexOf]
    by_cases h2 : jsLastIndexOf x t = -1
    · have hnot : x ∉ t := (jsLastIndexOf_eq_neg_one_iff x t).mp h2
      rw [if_neg (by simpa using h2)]
      by_cases h : a = x
      · rw [if_pos h]
        cases i with
        | zero =>
          simp only [Nat.cast_zero]
          constructor
          · intro _
            exact (isLastOccurrence_cons_zero a x t).mpr ⟨h, hnot⟩
          · intro _
            trivial
        | succ m =>
          constructor
          · intro hc
            omega
          · intro hf
            have := ((isLastOccurrence_cons_succ a x t m).mp hf).1
            exact absurd (List.mem_iff_get?.mpr ⟨m, this⟩) hnot
      · rw [if_neg h]
        constructor
        · intro hc
          omega
        · intro hf
          cases i with
          | zero => exact absurd ((isLastOccurrence_cons_zero a x t).mp hf).1 h
          | succ m =>
            have := ((isLastOccurrence_cons_succ a x t m).mp hf).1
            exact absurd (List.mem_iff_get?.mpr ⟨m, this⟩) hnot
    · rw [if_pos (by simpa using h2)]
      have hge := jsLastIndexOf_ge_neg_one x t
      obtain ⟨n, hn⟩ : ∃ n : ℕ, jsLastIndexOf x t = (n : ℤ) :=
        ⟨(jsLastIndexOf x t).toNat, by omega⟩
      rw [hn]
      have hlast : isLastOccurrence t x n := (ih n).mp hn
      cases i with
      | zero =>
        constructor
        · intro hc
          omega
        · intro hf
          have := ((isLastOccurrence_cons_zero a x t).mp hf).2
          exact absurd (List.mem_iff_get?.mpr ⟨n, hlast.1⟩) this
      | succ m =>
        constructor
        · intro hc
          have hm : m = n := by omega
          subst hm
          exact (isLastOccurrence_cons_succ a x t m).mpr hlast
        · intro hf
          have hm : isLastOccurrence t x m :=
            (isLastOccurrence_cons_succ a x t m).mp hf
          have := (ih m).mpr hm
          omega

theorem startIndex_spec (startId : String) (v : Variant) (si : ℕ) :
    (if startId = START_NODE then 0 else jsIndexOf startId v.path) = (si : ℤ) ↔
      resolvedStart startId v si := by
  by_cases h : startId = START_NODE
  · rw [if_pos h, resolvedStart, if_pos h]
    constructor <;> intro h2 <;> omega
  · rw [if_neg h, resolvedStart, if_neg h]
    exact jsIndexOf_eq_coe_iff startId v.path si

theorem endIndex_spec (endId : String) (v : Variant) (ei : ℕ) :
    (if endId = END_NODE then (v.path.length : ℤ) - 1 else jsLastIndexOf endId v.path)
        = (ei : ℤ) ↔
      resolvedEnd endId v ei := by
  by_cases h : endId = END_NODE
  · rw [if_pos h, resolvedEnd, if_pos h]
    constructor
    · intro h2
      have hlen : 1 ≤ v.path.length := by omega
      refine ⟨?_, by omega⟩
      intro hc
      rw [hc] at hlen
      simp at hlen
    · rintro ⟨hne, rfl⟩
      have hlen : 0 < v.path.length := List.length_pos.mpr hne
      omega
  · rw [if_neg h, resolvedEnd, if_neg h]
    exact jsLastIndexOf_eq_coe_iff endId v.path ei

theorem resolvedEnd_lt_length {endId : String} {v : Variant} {ei : ℕ}
    (h : resolvedEnd endId v ei) : ei < v.path.length := by
  rw [resolvedEnd] at h
  split at h
  · obtain ⟨hne, rfl⟩ := h
    have := List.length_pos.mpr hne
    omega
  · obtain ⟨hlt, -⟩ := List.get?_eq_some.mp h.1
    exact hlt

theorem extractPath_isSome_iff_conditions (startId endId : String) (v : Variant) :
    (extractPath startId endId v).isSome ↔
      ¬ (if startId = START_NODE then 0 else jsIndexOf startId v.path) = -1 ∧
      ¬ ((if endId = END_NODE then (v.path.length : ℤ) - 1
          else jsLastIndexOf endId v.path) = -1 ∨
         (if endId = END_NODE then (v.path.length : ℤ) - 1
          else jsLastIndexOf endId v.path) ≤
           (if startId = START_NODE then 0 else jsIndexOf startId v.path)) := by
  rw [extractPath]
  simp only
  by_cases h1 :
      (if startId = START_NODE then (0 : ℤ) else jsIndexOf startId v.path) = -1
  · rw [if_pos h1]
    simp [h1]
  · rw [if_neg h1]
    by_cases h2 :
        ((if endId = END_NODE then (v.path.length : ℤ) - 1
          else jsLastIndexOf endId v.path) = -1 ∨
         (if endId = END_NODE then (v.path.length : ℤ) - 1
          else jsLastIndexOf endId v.path) ≤
           (if startId = START_NODE then (0 : ℤ) else jsIndexOf startId v.path))
    · rw [if_pos h2]
      simp [h1, h2]
    · rw [if_neg h2]
      split <;> simp [h1, h2]

theorem extractPath_isSome_iff (startId endId : String) (v : Variant) :
    (extractPath startId endId v).isSome ↔
      ∃ si ei, resolvedStart startId v si ∧ resolvedEnd endId v ei ∧ si < ei := by
  rw [extractPath_isSome_iff_conditions]
  have hSIge : -1 ≤ (if startId = START_NODE then 0 else jsIndexOf startId v.path) := by
    split
    · omega
    · exact jsIndexOf_ge_neg_one startId v.path
  have hEIge : -1 ≤ (if endId = END_NODE then (v.path.length : ℤ) - 1
      else jsLastIndexOf endId v.path) := by
    split
    · omega
    · exact jsLastIndexOf_ge_neg_one endId v.path
  constructor
  · rintro ⟨hc1, hc2⟩
    obtain ⟨si, hsi⟩ : ∃ si : ℕ,
        (if startId = START_NODE then 0 else jsIndexOf startId v.path) = (si : ℤ) :=
      ⟨(if startId = START_NODE then 0 else jsIndexOf startId v.path).toNat, by omega⟩
    obtain ⟨ei, hei⟩ : ∃ ei : ℕ,
        (if endId = END_NODE then (v.path.length : ℤ) - 1
         else jsLastIndexOf endId v.path) = (ei : ℤ) :=
      ⟨(if endId = END_NODE then (v.path.length : ℤ) - 1
        else jsLastIndexOf endId v.path).toNat, by omega⟩
    refine ⟨si, ei, (startIndex_spec startId v si).mp hsi,
      (endIndex_spec endId v ei).mp hei, ?_⟩
    rw [hsi, hei] at hc2
    omega
  · rintro ⟨si, ei, hsi, hei, hlt⟩
    have h1 := (startIndex_spec startId v si).mpr hsi
    have h2 := (endIndex_spec endId v ei).mpr hei
    rw [h1, h2]
    constructor
    · omega
    · omega

theorem extractPath_fields {startId endId : String} {v : Variant}
    {p : ExtendedPath} {si ei : ℕ}
    (hp : extractPath startId endId v = some p)
    (hsi : resolvedStart startId v si) (hei : resolvedEnd endId v ei) :
    si < ei ∧
    p._startIndex = some si ∧ p._endIndex = some ei ∧
    p.nodes = (v.path.drop si).take (ei + 1 - si) ∧
    (p._pathType = some PathType.absolute ↔ (si = 0 ∧ ei = v.path.length - 1)) := by
  have hlen : ei < v.path.length := resolvedEnd_lt_length hei
  have hSI := (startIndex_spec startId v si).mpr hsi
  have hEI := (endIndex_spec endId v ei).mpr hei
  rw [extractPath] at hp
  simp only at hp
  rw [hSI, hEI] at hp
  rw [if_neg (by omega : ¬ ((si : ℤ) = -1))] at hp
  by_cases hc2 : ((ei : ℤ) = -1 ∨ (ei : ℤ) ≤ (si : ℤ))
  · rw [if_pos hc2] at hp
    exact Option.noConfusion hp
  · rw [if_neg hc2] at hp
    have hlt : si < ei := by omega
    refine ⟨hlt, ?_⟩
    have hdec : decide ((si : ℤ) = 0 ∧ (ei : ℤ) = (v.path.length : ℤ) - 1)
        = decide (si = 0 ∧ ei = v.path.length - 1) := by
      rw [decide_eq_decide]
      omega
    rw [hdec] at hp
    by_cases hab : si = 0 ∧ ei = v.path.length - 1
    · rw [if_pos (by simp [hab] :
        decide (si = 0 ∧ ei = v.path.length - 1) = true)] at hp
      repeat' split at hp
      all_goals obtain rfl := Option.some.inj hp
      all_goals exact ⟨by simp, by simp, by simp, by simp [hab]⟩
    · rw [if_neg (by simpa using hab :
        ¬ decide (si = 0 ∧ ei = v.path.length - 1) = true)] at hp
      repeat' split at hp
      all_goals obtain rfl := Option.some.inj hp
      all_goals exact ⟨by simp, by simp, by simp, by simp [hab]⟩

/-! ## Claim C3 -- extractor index resolution -/

/-- C3: for every variant and every (startId, endId) query, the extractor
succeeds exactly when a resolved start index (first occurrence of `startId`,
or `0` for the START sentinel) and a resolved end index (last occurrence of
`endId`, or `path.length - 1` for the END sentinel) exist with
`startIdx < endIdx`; on success it records exactly those indices, slices
`path[startIdx..endIdx]` inclusively, and marks the result absolute iff
`startIdx = 0` and `endIdx = path.length - 1`; in particular for
`path = [A, B, A, C]` with start `A` and end `C` it selects `startIdx = 0`,
`endIdx = 3` and slices the entire trace as an absolute path. -/
theorem C3_extractor_index_resolution (startId endId : String) (v : Variant) :
    ((extractPath startId endId v).isSome ↔
      ∃ si ei, resolvedStart startId v si ∧ resolvedEnd endId v ei ∧ si < ei) ∧
    (∀ p, extractPath startId endId v = some p →
      ∀ si ei, resolvedStart startId v si → resolvedEnd endId v ei →
        si < ei ∧
        p._startIndex = some si ∧ p._endIndex = some ei ∧
        p.nodes = (v.path.drop si).take (ei + 1 - si) ∧
        (p._pathType = some PathType.absolute ↔
          (si = 0 ∧ ei = v.path.length - 1))) ∧
    ((extractPath "A" "C"
        { path := ["A", "B", "A", "C"], frequency := 1, avgTimings := [],
          totalTimings := [] }).map
        (fun p => (p._startIndex, p._endIndex, p.nodes, p._pathType)) =
      some (some 0, some 3, ["A", "B", "A", "C"], some PathType.absolute)) := by
  refine ⟨extractPath_isSome_iff startId endId v, ?_, ?_⟩
  · intro p hp si ei hsi hei
    exact extractPath_fields hp hsi hei
  · rfl

/-- Witness for C3: the spec's own example — `path = [A, B, A, C]`, start `A`,
end `C` — extracts indices 0 and 3 and the whole trace as an absolute path. -/
theorem C3_extractor_index_resolution_witness :
    (extractPath "A" "C"
        { path := ["A", "B", "A", "C"], frequency := 1, avgTimings := [],
          totalTimings := [] }).map
        (fun p => (p._startIndex, p._endIndex, p.nodes, p._pathType)) =
      some (some 0, some 3, ["A", "B", "A", "C"], some PathType.absolute) :=
  (C3_extractor_index_resolution "A" "C"
    { path := ["A", "B", "A", "C"], frequency := 1, avgTimings := [],
      totalTimings := [] }).2.2

/-! ## Claim C7 -- edge durations are clamped at zero -/

/-- C7: the derived per-edge durations are clamped at zero at both sites that
difference the cumulative timing arrays.  (1) Every per-edge average and total
duration the extractor records is non-negative; (2) when the cumulative array
is non-monotonic at step `i` (`avgTimings[i+1] < avgTimings[i]`), the duration
the extractor stores for that edge is exactly `0`; (3) in the edge-override
resolver's occurrence loop, one step never decreases the running sum, and a
non-monotonic occurrence (`tEnd < tStart`) contributes exactly `0`. -/
theorem C7_duration_clamp :
    (∀ (startId endId : String) (v : Variant) (p : ExtendedPath),
      extractPath startId endId v = some p →
        (∀ kv ∈ p._specificEdgeDurations.getD [], 0 ≤ kv.2) ∧
        (∀ kv ∈ p._specificTotalDurations.getD [], 0 ≤ kv.2)) ∧
    (∀ (v : Variant) (acc : ℚ × List (String × ℚ) × List (String × ℚ)) (i : ℕ),
      v.avgTimings.getD (i + 1) 0 < v.avgTimings.getD i 0 →
        alistGet? (timingStep v acc i).2.1
          (v.path.getD i "" ++ "->" ++ v.path.getD (i + 1) "") = some 0) ∧
    (∀ (vt : List ℚ) (si : ℕ) (acc : ℚ × ℕ) (idx : ℕ),
      acc.1 ≤ (occurrenceStep vt si acc idx).1 ∧
      (∀ tStart tEnd, vt[si + idx]? = some tStart →
        vt[si + idx + 1]? = some tEnd → tEnd < tStart →
          (occurrenceStep vt si acc idx).1 = acc.1)) := by
  refine ⟨?_, ?_, ?_⟩
  · intro startId endId v p hp
    exact extractPath_records_nonneg hp
  · intro v acc i hlt
    rw [timingStep_snd_fst, alistGet?_alistSet_self]
    rw [max_eq_left (by linarith)]
  · intro vt si acc idx
    constructor
    · cases h1 : vt[si + idx]? with
      | none => simp [occurrenceStep, h1]
      | some t1 =>
        cases h2 : vt[si + idx + 1]? with
        | none => simp [occurrenceStep, h1, h2]
        | some t2 =>
          simp only [occurrenceStep, h1, h2]
          exact le_add_of_nonneg_right (le_max_left 0 _)
    · intro t1 t2 h1 h2 hlt2
      simp only [occurrenceStep, h1, h2]
      rw [max_eq_left (by linarith), add_zero]

/-- Witness for C7: on the non-monotonic cumulative array `[10, 5]` the
extractor's timing step stores duration `0` for the edge `A->B`. -/
theorem C7_duration_clamp_witness :
    (5 : ℚ) < 10 ∧
    alistGet? (timingStep
        { path := ["A", "B"], frequency := 1, avgTimings := [10, 5],
          totalTimings := [] } (0, [], []) 0).2.1 "A->B" = some 0 :=
  ⟨by norm_num,
   C7_duration_clamp.2.1
     { path := ["A", "B"], frequency := 1, avgTimings := [10, 5],
       totalTimings := [] } (0, [], []) 0 (by norm_num)⟩

/-! ## Helper lemmas: the override resolver's occurrence loop -/

theorem occurrenceStep_fst (vt : List ℚ) (si : ℕ) (acc : ℚ × ℕ) (idx : ℕ) :
    (occurrenceStep vt si acc idx).1 = acc.1 +
      (match vt[si + idx]?, vt[si + idx + 1]? with
       | some a, some b => max 0 (b - a)
       | _, _ => 0) := by
  cases h1 : vt[si + idx]? with
  | none => simp [occurrenceStep, h1]
  | some t1 =>
    cases h2 : vt[si + idx + 1]? with
    | none => simp [occurrenceStep, h1, h2]
    | some t2 => simp [occurrenceStep, h1, h2]

theorem occurrenceStep_snd (vt : List ℚ) (si : ℕ) (acc : ℚ × ℕ) (idx : ℕ) :
    (occurrenceStep vt si acc idx).2 = acc.2 +
      (if ((vt[si + idx]?).isSome && (vt[si + idx + 1]?).isSome) = true
       then 1 else 0) := by
  cases h1 : vt[si + idx]? with
  | none => simp [occurrenceStep, h1]
  | some t1 =>
    cases h2 : vt[si + idx + 1]? with
    | none => simp [occurrenceStep, h1, h2]
    | some t2 => simp [occurrenceStep, h1, h2]

theorem occurrenceStep_fold (vt : List ℚ) (si : ℕ) (idxs : List ℕ)
    (acc : ℚ × ℕ) :
    (idxs.foldl (occurrenceStep vt si) acc).1 = acc.1 + occSum vt si idxs ∧
    (idxs.foldl (occurrenceStep vt si) acc).2 = acc.2 + occCount vt si idxs := by
  induction idxs generalizing acc with
  | nil => simp [occSum, occCount]
  | cons i t ih =>
    rw [List.foldl_cons]
    obtain ⟨ih1, ih2⟩ := ih (occurrenceStep vt si acc i)
    constructor
    · rw [ih1, occurrenceStep_fst]
      simp only [occSum, List.map_cons, List.sum_cons]
      ring
    · rw [ih2, occurrenceStep_snd]
      simp only [occCount, List.countP_cons]
      omega

theorem edgeIndices_mem (es : List String) (x : String) (i : ℕ) :
    (i ∈ (es.enum.filter (fun kv => kv.2 = x)).map Prod.fst) ↔
      es[i]? = some x := by
  simp only [List.mem_map, List.mem_filter]
  constructor
  · rintro ⟨⟨j, a⟩, ⟨hmem, hfa⟩, hfst⟩
    simp only [decide_eq_true_eq] at hfa
    simp only at hfst
    subst hfst
    subst hfa
    exact List.mem_enum_iff_getElem?.mp hmem
  · intro h
    refine ⟨(i, x), ⟨?_, by simp⟩, rfl⟩
    exact List.mem_enum_iff_getElem?.mpr h

/-! ## Claim C8 -- the override resolver's branch priority -/

/-- C8 counterexample: branch (b)'s stated conditions are not sufficient.
For an edge that occurs once in the active path's edge list, with a raw
cumulative timing array present and non-empty and a start index present, the
resolver still returns `null` when no occurrence has both surrounding
timestamps inside the array (here `vt = [5]`: the occurrence needs `vt[1]`,
which does not exist), instead of the override branch (b) of the claim
prescribes. -/
theorem C8_counterexample :
    ∃ (edge : GEdge) (p : ExtendedPath),
      p._specificEdgeDurations = none ∧
      p._startIndex = some 0 ∧
      (∃ vt, p._variantTimings = some vt ∧ 0 < vt.length) ∧
      0 < ((p.edges.enum.filter (fun kv => kv.2 = edge.id)).map
            Prod.fst).length ∧
      calculateEdgeOverride (fun _ => "") edge (some p) = none := by
  refine ⟨{ id := "A->B", source := "A", target := "B" },
    { nodes := ["A", "B"], edges := ["A->B"], _startIndex := some 0,
      _variantTimings := some [5] }, rfl, rfl, ⟨[5], rfl, by decide⟩, ?_, ?_⟩
  · decide
  · rfl

/-- C8: the override resolver's branch priority.  (1) No active path gives no
override; (2) the occurrence-index list collects exactly the positions of the
edge's id in the active path's edge list; (3) branch (a): when the per-edge
average-duration map contains the edge's id, the override is built directly
from that map entry; (4) branch (b): when the map misses (or is absent) and
the raw cumulative timing array and start index are present, the result is the
per-occurrence clamped-delta sum `occSum` with traversal count `occCount` —
provided the occurrence list is non-empty, the timing array is non-empty and
at least one occurrence has both timestamps — and `null` otherwise, and
`null` whenever the timing array or the start index is absent. -/
theorem C8_override_priority (fmt : ℚ → String) (edge : GEdge) :
    (calculateEdgeOverride fmt edge none = none) ∧
    (∀ es : List String, ∀ i : ℕ,
      (i ∈ (es.enum.filter (fun kv => kv.2 = edge.id)).map Prod.fst) ↔
        es[i]? = some edge.id) ∧
    (∀ p : ExtendedPath, ∀ durs : List (String × ℚ), ∀ d : ℚ,
      p._specificEdgeDurations = some durs →
      alistGet? durs edge.id = some d →
      calculateEdgeOverride fmt edge (some p) =
        some { displayLabel := fmt d
               label := jsOrNat p._frequency (jsOrNat p.frequency 1)
               meanTime := fmt d ++ " (میانگین)"
               totalTime := fmt (match p._specificTotalDurations with
                 | some tot => (alistGet? tot edge.id).getD d
                 | none => d)
               rawDuration := some d }) ∧
    (∀ p : ExtendedPath,
      (p._specificEdgeDurations = none ∨
        ∃ durs, p._specificEdgeDurations = some durs ∧
          alistGet? durs edge.id = none) →
      (∀ vt : List ℚ, ∀ si : ℕ,
        p._variantTimings = some vt → p._startIndex = some si →
        calculateEdgeOverride fmt edge (some p) =
          (if 0 < ((p.edges.enum.filter (fun kv => kv.2 = edge.id)).map
                     Prod.fst).length ∧ 0 < vt.length ∧
              0 < occCount vt si ((p.edges.enum.filter
                     (fun kv => kv.2 = edge.id)).map Prod.fst)
           then
             some { displayLabel := fmt (occSum vt si
                      ((p.edges.enum.filter (fun kv => kv.2 = edge.id)).map
                        Prod.fst))
                    label := jsOrNat p._frequency 0
                    meanTime :=
                      if 1 < occCount vt si ((p.edges.enum.filter
                          (fun kv => kv.2 = edge.id)).map Prod.fst)
                      then fmt (occSum vt si ((p.edges.enum.filter
                          (fun kv => kv.2 = edge.id)).map Prod.fst)) ++
                        " (مجموع " ++ toString (occCount vt si
                          ((p.edges.enum.filter (fun kv => kv.2 = edge.id)).map
                            Prod.fst)) ++ " بار عبور)"
                      else fmt (occSum vt si ((p.edges.enum.filter
                          (fun kv => kv.2 = edge.id)).map Prod.fst))
                    totalTime := fmt ((occSum vt si ((p.edges.enum.filter
                        (fun kv => kv.2 = edge.id)).map Prod.fst)) *
                      ((jsOrNat p._frequency 0 : ℕ) : ℚ)) }
           else none)) ∧
      ((p._variantTimings = none ∨ p._startIndex = none) →
        calculateEdgeOverride fmt edge (some p) = none)) := by
  refine ⟨rfl, ?_, ?_, ?_⟩
  · intro es i
    exact edgeIndices_mem es edge.id i
  · intro p durs d hdurs hd
    simp only [calculateEdgeOverride]
    rw [hdurs]
    simp only
    rw [hd]
  · intro p hmiss
    constructor
    · intro vt si hvt hsi
      have hfold := occurrenceStep_fold vt si
        ((p.edges.enum.filter (fun kv => kv.2 = edge.id)).map Prod.fst) (0, 0)
      simp only [calculateEdgeOverride]
      rcases hmiss with hm | ⟨durs, hm, hget⟩ <;>
        (rw [hm]; simp only)
      · rw [hvt, hsi]
        simp only
        rw [hfold.1, hfold.2, zero_add, zero_add]
        by_cases h1 : 0 < ((p.edges.enum.filter (fun kv => kv.2 = edge.id)).map
            Prod.fst).length ∧ 0 < vt.length
        · rw [if_pos h1]
          by_cases h2 : 0 < occCount vt si ((p.edges.enum.filter
              (fun kv => kv.2 = edge.id)).map Prod.fst)
          · have hc : 0 < ((p.edges.enum.filter (fun kv => kv.2 = edge.id)).map
                Prod.fst).length ∧ 0 < vt.length ∧
                0 < occCount vt si ((p.edges.enum.filter
                  (fun kv => kv.2 = edge.id)).map Prod.fst) := ⟨h1.1, h1.2, h2⟩
            rw [if_pos h2, if_pos hc]
          · have hc : ¬ (0 < ((p.edges.enum.filter (fun kv => kv.2 = edge.id)).map
                Prod.fst).length ∧ 0 < vt.length ∧
                0 < occCount vt si ((p.edges.enum.filter
                  (fun kv => kv.2 = edge.id)).map Prod.fst)) := by tauto
            rw [if_neg h2, if_neg hc]
        · have hc : ¬ (0 < ((p.edges.enum.filter (fun kv => kv.2 = edge.id)).map
              Prod.fst).length ∧ 0 < vt.length ∧
              0 < occCount vt si ((p.edges.enum.filter
                (fun kv => kv.2 = edge.id)).map Prod.fst)) := by tauto
          rw [if_neg h1, if_neg hc]
      · rw [hget]
        simp only
        rw [hvt, hsi]
        simp only
        rw [hfold.1, hfold.2, zero_add, zero_add]
        by_cases h1 : 0 < ((p.edges.enum.filter (fun kv => kv.2 = edge.id)).map
            Prod.fst).length ∧ 0 < vt.length
        · rw [if_pos h1]
          by_cases h2 : 0 < occCount vt si ((p.edges.enum.filter
              (fun kv => kv.2 = edge.id)).map Prod.fst)
          · have hc : 0 < ((p.edges.enum.filter (fun kv => kv.2 = edge.id)).map
                Prod.fst).length ∧ 0 < vt.length ∧
                0 < occCount vt si ((p.edges.enum.filter
                  (fun kv => kv.2 = edge.id)).map Prod.fst) := ⟨h1.1, h1.2, h2⟩
            rw [if_pos h2, if_pos hc]
          · have hc : ¬ (0 < ((p.edges.enum.filter (fun kv => kv.2 = edge.id)).map
                Prod.fst).length ∧ 0 < vt.length ∧
                0 < occCount vt si ((p.edges.enum.filter
                  (fun kv => kv.2 = edge.id)).map Prod.fst)) := by tauto
            rw [if_neg h2, if_neg hc]
        · have hc : ¬ (0 < ((p.edges.enum.filter (fun kv => kv.2 = edge.id)).map
              Prod.fst).length ∧ 0 < vt.length ∧
              0 < occCount vt si ((p.edges.enum.filter
                (fun kv => kv.2 = edge.id)).map Prod.fst)) := by tauto
          rw [if_neg h1, if_neg hc]
    · intro hnone
      simp only [calculateEdgeOverride]
      rcases hmiss with hm | ⟨durs, hm, hget⟩ <;>
        (rw [hm]; simp only)
      · rcases hnone with hn | hn <;> rw [hn]
        cases p._variantTimings <;> rfl
      · rw [hget]
        simp only
        rcases hnone with hn | hn <;> rw [hn]
        cases p._variantTimings <;> rfl

/-- Witness for C8: a map hit — branch (a) builds the override from the
per-edge average-duration map entry `("A->B", 7)`. -/
theorem C8_override_priority_witness :
    calculateEdgeOverride (fun _ => "d")
        { id := "A->B", source := "A", target := "B" }
        (some { nodes := ["A", "B"], edges := [],
                _specificEdgeDurations := some [("A->B", 7)],
                _frequency := some 2 }) =
      some { displayLabel := "d"
             label := jsOrNat (some 2) (jsOrNat none 1)
             meanTime := "d" ++ " (میانگین)"
             totalTime := "d"
             rawDuration := some 7 } :=
  (C8_override_priority (fun _ => "d")
      { id := "A->B", source := "A", target := "B" }).2.2.1
    { nodes := ["A", "B"], edges := [],
      _specificEdgeDurations := some [("A->B", 7)], _frequency := some 2 }
    [("A->B", 7)] 7 rfl rfl

end GraphNext
